import Mathlib

/-!
Verification of the Lilith unified personal-data search engine
(`src/orchestrators/search/` and `src/tools/universal_search.py`).

The Python code is shallowly embedded: Python dicts become insertion-ordered
association lists (`List (String × _)`), Python floats become `ℚ`, fallible
calls become `Except Unit _`, and async boundaries (MCP call functions, the
language-model callback, the JSON library) become explicit function
parameters.  Where Python leaves an order unspecified (`list(set(..))`) the
embedding fixes first-occurrence order and theorems only use membership.
-/

namespace Lilith

/-! ## Python dict / list primitives -/

/-- In-place value update of an insertion-ordered association list, mirroring
Python `d[k] = v` for a key already present (position is preserved). -/
def assocSet {α : Type} (l : List (String × α)) (k : String) (v : α) :
    List (String × α) :=
  l.map (fun p => if p.1 = k then (k, v) else p)

/-- Python list slicing `l[:n]` for a possibly negative `n`. -/
def pyTake {α : Type} (n : ℤ) (l : List α) : List α :=
  if 0 ≤ n then l.take n.toNat else l.take ((l.length : ℤ) + n).toNat

/-- Model of Python `list(set(xs))`: duplicates removed.  CPython's set order
is unspecified; the embedding fixes first-occurrence order and every theorem
below uses only membership of the result. -/
def pySetList (xs : List String) : List String :=
  xs.foldl (fun acc x => if x ∈ acc then acc else acc ++ [x]) []

/-- Python `str.strip()` (ASCII whitespace), implemented structurally so
that concrete evaluation reduces in the kernel. -/
def pyStrip (s : String) : String :=
  ⟨((s.data.dropWhile Char.isWhitespace).reverse.dropWhile
    Char.isWhitespace).reverse⟩

/-- Python `str.lower()` (ASCII), structurally. -/
def pyLower (s : String) : String :=
  ⟨s.data.map Char.toLower⟩

/-- `str.startswith(p)`, structurally. -/
def startsWithStr (s p : String) : Bool :=
  p.data.isPrefixOf s.data

/-- Drop the first `n` characters (`s[n:]`), structurally. -/
def pyStrDrop (n : ℕ) (s : String) : String :=
  ⟨s.data.drop n⟩

/-- Split a character list at a separator character. -/
def splitCharList (c : Char) : List Char → List (List Char)
  | [] => [[]]
  | x :: xs =>
      let r := splitCharList c xs
      if x = c then [] :: r
      else
        match r with
        | [] => [[x]]
        | h :: t => (x :: h) :: t

/-- `s.split("\n")`, structurally. -/
def splitLines (s : String) : List String :=
  (splitCharList (Char.ofNat 10) s.data).map (fun l => ⟨l⟩)

/-! ## Data model (src/contracts/mcp_search_v1.py) -/

/-- `SourceClass` enum: personal | web. -/
inductive SourceClass where
  | personal
  | web
deriving DecidableEq, Repr

/-- `SourceClass.value` in Python. -/
def SourceClass.value : SourceClass → String
  | .personal => "personal"
  | .web => "web"

/-- `SearchResultV1`: one search result.  `scores` is the per-method score
dict (method name → float, embedded as ℚ); `metadata` is kept as an opaque
string map. -/
structure SearchResult where
  id : String
  source : String
  sourceClass : SourceClass := .personal
  title : String := ""
  snippet : String := ""
  timestamp : Option String := none
  scores : List (String × ℚ) := []
  methodsUsed : List String := []
  metadata : List (String × String) := []
  provenance : Option String := none
deriving DecidableEq, Repr

/-- `AggregateGroup`: one group from aggregate mode. -/
structure AggregateGroup where
  groupValue : String
  count : ℤ
  label : Option String := none
deriving DecidableEq, Repr

/-- `FilterClause` dict as built by the router: field / operator / value. -/
structure FilterClause where
  field : String
  operator : String
  value : String
deriving DecidableEq, Repr

/-- `FilterSpec`: one filterable field a source declares. -/
structure FilterSpec where
  name : String
deriving DecidableEq, Repr

/-- `SearchCapabilities` (the fields consumed by the router, the dispatcher
and the orchestrator). -/
structure Capability where
  sourceName : String
  sourceClass : SourceClass := .personal
  supportedMethods : List String
  supportedFilters : List FilterSpec := []
  supportedModes : List String := ["search"]
  supportedGroupByFields : List String := []
  displayLabel : Option String := none
  requestRoutingArgs : List (String × String) := []
deriving DecidableEq, Repr

/-- The capability registry: source name → capability, last `register` wins.
Embedded as the underlying dict. -/
abbrev Registry := List (String × Capability)

/-- `CapabilityRegistry.get`. -/
def Registry.get (reg : Registry) (sourceName : String) : Option Capability :=
  reg.lookup sourceName

/-- `CapabilityRegistry.can_handle`. -/
def Registry.canHandle (reg : Registry) (sourceName method : String) : Bool :=
  match reg.get sourceName with
  | none => false
  | some caps => method ∈ caps.supportedMethods

/-- `CapabilityRegistry.sources_supporting_filter`. -/
def Registry.sourcesSupportingFilter (reg : Registry) (filterName : String) :
    List String :=
  (reg.filter (fun p => (p.2.supportedFilters.map (·.name)).contains filterName)).map
    Prod.fst

/-- `CapabilityRegistry.all_sources`. -/
def Registry.allSources (reg : Registry) : List String := reg.map Prod.fst

/-- `CapabilityRegistry.personal_sources`. -/
def Registry.personalSources (reg : Registry) : List String :=
  (reg.filter (fun p => p.2.sourceClass = SourceClass.personal)).map Prod.fst

/-- `CapabilityRegistry.supports_group_by`. -/
def Registry.supportsGroupBy (reg : Registry) (sourceName fieldName : String) :
    Bool :=
  match reg.get sourceName with
  | none => false
  | some caps => fieldName ∈ caps.supportedGroupByFields

/-! ## Fusion ranker (src/orchestrators/search/fusion.py) -/

/-- `METHOD_WEIGHTS` lookup with the `0.5` default of `compute_fused_score`. -/
def methodWeight (method : String) : ℚ :=
  if method = "structured" then 1
  else if method = "fulltext" then 17/20
  else if method = "vector" then 7/10
  else if method = "graph" then 9/10
  else 1/2

/-- `SOURCE_CLASS_BOOST.get(result.source_class.value, 0.8)`. -/
def sourceClassBoost (sc : SourceClass) : ℚ :=
  if sc.value = "personal" then 1 else if sc.value = "web" then 4/5 else 4/5

/-- `compute_fused_score`: weighted per-method average times the class boost. -/
def compute_fused_score (r : SearchResult) (isPersonalQuery : Bool) : ℚ :=
  if r.scores = [] then 0
  else
    let totalWeight := (r.scores.map (fun p => methodWeight p.1)).sum
    let totalScore := (r.scores.map (fun p => p.2 * methodWeight p.1)).sum
    let methodAvg := if totalWeight > 0 then totalScore / totalWeight else 0
    let boost :=
      if isPersonalQuery then sourceClassBoost r.sourceClass
      else if r.sourceClass = SourceClass.web then 1 else 9/10
    methodAvg * boost

/-- The dedup dict key `f"{r.source}:{r.id}"`. -/
def dedupKey (r : SearchResult) : String := r.source ++ ":" ++ r.id

/-- Score merge of `deduplicate_results`: start from the existing score dict,
then per method keep the strictly larger value (or append a new method). -/
def mergeScores (existing incoming : List (String × ℚ)) : List (String × ℚ) :=
  incoming.foldl
    (fun merged ms =>
      match merged.lookup ms.1 with
      | none => merged ++ [ms]
      | some old => if ms.2 > old then assocSet merged ms.1 ms.2 else merged)
    existing

/-- One step of the `deduplicate_results` loop over the `seen` dict. -/
def dedupStep (seen : List (String × SearchResult)) (r : SearchResult) :
    List (String × SearchResult) :=
  match seen.lookup (dedupKey r) with
  | none => seen ++ [(dedupKey r, r)]
  | some existing =>
      assocSet seen (dedupKey r)
        { existing with
          scores := mergeScores existing.scores r.scores
          methodsUsed := pySetList (existing.methodsUsed ++ r.methodsUsed) }

/-- `deduplicate_results`: dedup by the string key `source:id`, merging scores
by per-method max and unioning method lists. -/
def deduplicate_results (results : List SearchResult) : List SearchResult :=
  (results.foldl dedupStep []).map Prod.snd

/-- Insertion into a score-descending list, placing the new element before the
first entry whose score is not strictly larger.  Folded from the right this
computes exactly the stable descending sort performed by Python's
`scored.sort(key=lambda x: -x[0])` (stable sorts by a key are unique as
functions, so the choice of algorithm is immaterial). -/
def insertScoreDesc (x : ℚ × SearchResult) :
    List (ℚ × SearchResult) → List (ℚ × SearchResult)
  | [] => [x]
  | y :: ys => if y.1 > x.1 then y :: insertScoreDesc x ys else x :: y :: ys

/-- Stable sort by fused score descending (`scored.sort(key=lambda x: -x[0])`). -/
def sortScoreDesc (l : List (ℚ × SearchResult)) : List (ℚ × SearchResult) :=
  l.foldr insertScoreDesc []

/-- `WeightedFusionRanker.fuse_and_rank`: dedup, score, stable-sort by score
descending, truncate with Python slicing to `max_results`. -/
def fuse_and_rank (results : List SearchResult) (isPersonalQuery : Bool)
    (maxResults : ℤ) : List SearchResult :=
  if results = [] then []
  else
    let deduped := deduplicate_results results
    let scored := deduped.map (fun r => (compute_fused_score r isPersonalQuery, r))
    let sorted := sortScoreDesc scored
    (pyTake maxResults sorted).map Prod.snd

/-! ## JSON values and the MCP dispatcher (src/orchestrators/search/dispatcher.py) -/

/-- A JSON-ish Python value as handled by the dispatcher. -/
inductive JVal where
  | jstr (s : String)
  | jnum (q : ℚ)
  | jbool (b : Bool)
  | jnull
  | jarr (elements : List JVal)
  | jobj (fields : List (String × JVal))

/-- Python truthiness of a value (used by `result.get("success", True)`). -/
def JVal.truthy : JVal → Bool
  | .jstr s => s != ""
  | .jnum q => q != 0
  | .jbool b => b
  | .jnull => false
  | .jarr xs => !xs.isEmpty
  | .jobj fs => !fs.isEmpty

/-- Whether a JSON value equals a given Python string (`v == "s"`). -/
def JVal.isStr : JVal → String → Bool
  | .jstr t, s => t = s
  | _, _ => false

/-- Whether a JSON value `is True`. -/
def JVal.isTrue : JVal → Bool
  | .jbool b => b
  | _ => false

/-- Python `str(..)` for the scalar shapes the dispatcher and the intent
consumers feed it (`str(item.get("id", ""))`, `str(value or ..)`).
Container rendering is approximated with a placeholder: every consumer
either compares the result against fixed keyword strings (which no
container rendering matches) or passes it to the alias-match oracle, so no
claim depends on the exact rendering. -/
def JVal.pyStr : JVal → String
  | .jstr s => s
  | .jnum q => if q.den = 1 then toString q.num else toString q
  | .jbool b => if b then "True" else "False"
  | .jnull => "None"
  | .jarr _ => "<list>"
  | .jobj _ => "<dict>"

/-- Pydantic `str` field validation: only strings are accepted. -/
def JVal.asStr : JVal → Option String
  | .jstr s => some s
  | _ => none

/-- Pydantic `str | None` field validation. -/
def JVal.asOptStr : JVal → Option (Option String)
  | .jstr s => some (some s)
  | .jnull => some none
  | _ => none

/-- Pydantic `int` field validation (integral numbers only). -/
def JVal.asInt : JVal → Option ℤ
  | .jnum q => if q.den = 1 then some q.num else none
  | _ => none

/-- `SourceClass(value)`: raises `ValueError` (here `none`) on anything that
is not one of the enum values. -/
def parseSourceClass : JVal → Option SourceClass
  | .jstr "personal" => some .personal
  | .jstr "web" => some .web
  | _ => none

/-- Pydantic `dict[str, float]` validation for the `scores` field. -/
def JVal.asScores : JVal → Option (List (String × ℚ))
  | .jobj fs =>
      fs.mapM (fun p => match p.2 with
        | .jnum q => some (p.1, q)
        | _ => none)
  | _ => none

/-- Pydantic `list[str]` validation for `methods_used`. -/
def JVal.asStrList : JVal → Option (List String)
  | .jarr xs => xs.mapM JVal.asStr
  | _ => none

/-- `metadata: dict[str, Any]`; values are kept as rendered strings (the
orchestrator never interprets them). -/
def JVal.asStrMap : JVal → Option (List (String × String))
  | .jobj fs => some (fs.map (fun p => (p.1, p.2.pyStr)))
  | _ => none

/-- Per-item parsing of `_parse_response` (dispatcher.py lines 179-205): a
non-dict item is skipped, and a `SearchResultV1` validation error is caught
and the item skipped. -/
def parseResultItem (defaultSource : String) : JVal → Option SearchResult
  | .jobj fs => do
      let id := ((fs.lookup "id").getD (.jstr "")).pyStr
      let source ← ((fs.lookup "source").getD (.jstr defaultSource)).asStr
      let sourceClass ← parseSourceClass ((fs.lookup "source_class").getD (.jstr "personal"))
      let title ← ((fs.lookup "title").getD (.jstr "")).asStr
      let snippet ← ((fs.lookup "snippet").getD (.jstr "")).asStr
      let timestamp ← ((fs.lookup "timestamp").getD .jnull).asOptStr
      let scores ← ((fs.lookup "scores").getD (.jobj [])).asScores
      let methodsUsed ← ((fs.lookup "methods_used").getD (.jarr [])).asStrList
      let metadata ← ((fs.lookup "metadata").getD (.jobj [])).asStrMap
      let provenance ← ((fs.lookup "provenance").getD .jnull).asOptStr
      pure { id, source, sourceClass, title, snippet, timestamp, scores,
             methodsUsed, metadata, provenance }
  | _ => none

/-- `AggregateGroup(**agg)` with its required fields; a validation error is
caught and the aggregate skipped (dispatcher.py lines 170-175). -/
def parseAggregateItem : JVal → Option AggregateGroup
  | .jobj fs => do
      let gv ← (← fs.lookup "group_value").asStr
      let cnt ← (← fs.lookup "count").asInt
      let label ← ((fs.lookup "label").getD .jnull).asOptStr
      pure { groupValue := gv, count := cnt, label }
  | _ => none

/-- `DispatcherResult`.  `count` keeps the raw payload value (`None` and a
JSON `null` both become `none`); `mode` keeps the raw payload value, which
the code never validates. -/
structure DispatcherResult where
  results : List SearchResult := []
  count : Option JVal := none
  aggregates : List AggregateGroup := []
  mode : JVal := .jstr "search"
  source : String := ""

/-- The happy-path body of `_parse_response` once `data` is known to be a
dict (dispatcher.py lines 166-213). -/
def parseResponseData (data : List (String × JVal)) (source : String)
    (mode : String) : DispatcherResult :=
  let responseMode := (data.lookup "mode").getD (.jstr mode)
  let count :=
    match data.lookup "count" with
    | none => none
    | some .jnull => none
    | some v => some v
  let aggregates :=
    match (data.lookup "aggregates").getD (.jarr []) with
    | .jarr xs => xs.filterMap parseAggregateItem
    | _ => []
  let results :=
    match (data.lookup "results").getD (.jarr []) with
    | .jarr xs => xs.filterMap (parseResultItem source)
    | _ => []
  { results, count, aggregates, mode := responseMode, source }

/-- `MCPSearchDispatcher._parse_response`.  `parseJson` stands for
`json.loads` (`none` = `JSONDecodeError`).  The `.error` outcome models the
uncaught `AttributeError` raised when a JSON string `output` parses to a
non-dict (`data.get` then fails); the caller `_execute_one` catches it. -/
def parse_response (parseJson : String → Option JVal)
    (result : List (String × JVal)) (source : String) (mode : String) :
    Except Unit DispatcherResult :=
  if !(((result.lookup "success").getD (.jbool true)).truthy)
      && (result.lookup "results").isNone
      && (result.lookup "count").isNone then
    .ok { source, mode := .jstr mode }
  else
    match result.lookup "output" with
    | some (.jstr s) =>
        match parseJson s with
        | none => .ok { source, mode := .jstr mode }
        | some (.jobj fs) => .ok (parseResponseData fs source mode)
        | some _ => .error ()
    | some (.jobj fs) => .ok (parseResponseData fs source mode)
    | _ => .ok (parseResponseData result source mode)

/-- Python dict assignment `d[k] = v`: update in place, else append. -/
def assocUpsert {α : Type} (l : List (String × α)) (k : String) (v : α) :
    List (String × α) :=
  if (l.lookup k).isSome then assocSet l k v else l ++ [(k, v)]

/-- Dispatcher registration state (`_mcp_callers` / `_connection_sources`);
call functions are opaque tokens resolved by the environment. -/
structure DispatcherState where
  mcpCallers : List (String × ℕ) := []
  connectionSources : List (String × String) := []

/-- `MCPSearchDispatcher.register_mcp(connection_key, source_names, mcp_call)`
(dispatcher.py lines 39-53).  The embedded signature mirrors the source: it
accepts no `request_routing_args` parameter. -/
def register_mcp (st : DispatcherState) (connectionKey : String)
    (sourceNames : List String) (mcpCall : ℕ) : DispatcherState :=
  { mcpCallers :=
      sourceNames.foldl (fun m name => assocUpsert m name mcpCall) st.mcpCallers
    connectionSources :=
      sourceNames.foldl (fun m name => assocUpsert m name connectionKey)
        st.connectionSources }

/-- The `unified_search` argument dict built by `MCPSearchDispatcher.search`
(dispatcher.py lines 77-97), including the hard-coded browser sub-source
flags.  The capability-declared `request_routing_args` of the source are not
consulted anywhere in this construction. -/
def buildUnifiedSearchArgs (source query : String) (methods : List String)
    (filters : List FilterClause) (topK : ℤ) (mode : String)
    (sortField : Option String) (sortOrder : String) (groupBy : Option String)
    (aggregateTopN : ℤ) : List (String × JVal) :=
  let args : List (String × JVal) :=
    [("query", .jstr query), ("top_k", .jnum topK),
     ("include_scores", .jbool true), ("mode", .jstr mode),
     ("aggregate_top_n", .jnum aggregateTopN)]
  let args := if methods = [] then args
    else args ++ [("methods", .jarr (methods.map .jstr))]
  let args := if filters = [] then args
    else args ++ [("filters", .jarr (filters.map (fun f =>
      .jobj [("field", .jstr f.field), ("operator", .jstr f.operator),
             ("value", .jstr f.value)])))]
  let args :=
    match sortField with
    | some sf =>
        if sf = "" then args
        else args ++ [("sort_field", .jstr sf), ("sort_order", .jstr sortOrder)]
    | none => args
  let args :=
    match groupBy with
    | some g =>
        if g ≠ "" ∧ mode = "aggregate" then args ++ [("group_by", .jstr g)]
        else args
    | none => args
  if source = "browser_history" ∨ source = "browser_bookmarks" then
    args ++ [("search_history", .jbool (source = "browser_history")),
             ("search_bookmarks", .jbool (source = "browser_bookmarks"))]
  else args

/-- `MCPSearchDispatcher.search`: resolve the call function, build the
argument dict, call, and parse.  `callFn` resolves call-function tokens; an
`.error` from the call function models a thrown exception and is caught
(lines 100-104).  An `.error` from `parse_response` propagates, exactly as
the `AttributeError` does in the Python. -/
def dispatcher_search
    (callFn : ℕ → List (String × JVal) → Except Unit (List (String × JVal)))
    (parseJson : String → Option JVal) (st : DispatcherState)
    (source query : String) (methods : List String)
    (filters : List FilterClause) (topK : ℤ) (mode : String)
    (sortField : Option String) (sortOrder : String) (groupBy : Option String)
    (aggregateTopN : ℤ) : Except Unit DispatcherResult :=
  match st.mcpCallers.lookup source with
  | none => .ok { source, mode := .jstr mode }
  | some token =>
      let args := buildUnifiedSearchArgs source query methods filters topK mode
        sortField sortOrder groupBy aggregateTopN
      match callFn token args with
      | .error _ => .ok { source, mode := .jstr mode }
      | .ok result => parse_response parseJson result source mode

/-! ## Retrieval router (src/orchestrators/search/router.py) -/

/-- Generic stable insertion used by the embeddings of Python's stable
sorts: `ahead y x` holds when `y` strictly precedes `x` in key order, so
elements with equal keys keep their original relative order under the
right fold. -/
def insertBy {α : Type} (ahead : α → α → Bool) (x : α) : List α → List α
  | [] => [x]
  | y :: ys => if ahead y x then y :: insertBy ahead x ys else x :: y :: ys

/-- Stable sort: the unique stable ordering by the strict precedence
`ahead` (Python's `list.sort(key=..)` semantics). -/
def stableSortBy {α : Type} (ahead : α → α → Bool) (l : List α) : List α :=
  l.foldr (insertBy ahead) []

/-- `SearchMode` enum. -/
inductive SearchMode where
  | search
  | count
  | aggregate
deriving DecidableEq, Repr

/-- `SearchMode.value`. -/
def SearchMode.value : SearchMode → String
  | .search => "search"
  | .count => "count"
  | .aggregate => "aggregate"

/-- `SearchMode(mode_raw)` with `ValueError` as `none`. -/
def parseSearchMode (s : String) : Option SearchMode :=
  if s = "search" then some .search
  else if s = "count" then some .count
  else if s = "aggregate" then some .aggregate
  else none

/-- `SourceMatch`: scored source hint. -/
structure SourceMatch where
  source : String
  confidence : ℚ
  reasons : List String := []
deriving DecidableEq, Repr

/-- `RoutingDecision` with the dataclass defaults. -/
structure RoutingDecision where
  source : String
  methods : List String
  query : String
  filters : List FilterClause := []
  mode : SearchMode := .search
  sortField : Option String := none
  sortOrder : String := "desc"
  groupBy : Option String := none
  aggregateTopN : ℤ := 10
deriving DecidableEq, Repr

/-- `RoutingComplexity` enum. -/
inductive RoutingComplexity where
  | simple
  | complex
deriving DecidableEq, Repr

/-- `RoutingPlan`. -/
structure RoutingPlan where
  decisions : List RoutingDecision
  complexity : RoutingComplexity
  usedDefaultSources : Bool := false
  sourceMatches : List SourceMatch := []

/-- An entity entry of an intent dict (`entity.get(..)` fields, absent keys
as empty strings). -/
structure IntentEntity where
  role : String := ""
  name : String := ""
  email : String := ""
deriving DecidableEq, Repr

/-- One step of a `retrieval_plan`. -/
structure PlanStep where
  sources : List String := []
  queryFocus : String := ""
  entityFromPrevious : Bool := false
deriving DecidableEq, Repr

/-- The intent dict fields consumed by the router and the orchestrator
(`intent.get(..)` with the code's defaults). -/
structure Intent where
  intentLabel : String := "find_information"
  entities : List IntentEntity := []
  temporal : Option String := none
  sourceHints : List String := []
  complexity : String := "simple"
  retrievalPlan : Option (List PlanStep) := none
  searchMode : String := "search"
  aggregateGroupBy : Option String := none
  aggregateTopN : ℤ := 10
deriving DecidableEq, Repr

/-- Dates produced by `datetime.now(tz)` in `_extract_filters`:
`daysAgoIso n` is the ISO date `n` days before now in the user timezone. -/
structure DateEnv where
  daysAgoIso : ℕ → String

/-- `RetrievalRouter._extract_filters` (router.py lines 489-574). -/
def extract_filters (denv : DateEnv) (intent : Intent) : List FilterClause :=
  let entityFilters := intent.entities.foldl (fun acc e =>
    let name := pyStrip e.name
    let email := pyStrip e.email
    if e.role = "sender" then
      acc ++ (if name ≠ "" then [⟨"from_name", "contains", name⟩] else [])
          ++ (if email ≠ "" then [⟨"from_email", "contains", email⟩] else [])
    else if e.role = "recipient" ∧ name ≠ "" then
      acc ++ [⟨"to_email", "contains", name⟩]
    else acc) []
  let temporalFilters :=
    match intent.temporal with
    | none => []
    | some t =>
        if t = "" then []
        else
          let ts := pyStrip (pyLower t)
          if ts = "today" then [⟨"date_after", "gte", denv.daysAgoIso 0⟩]
          else if ts = "yesterday" then
            [⟨"date_after", "gte", denv.daysAgoIso 1⟩,
             ⟨"date_before", "lte", denv.daysAgoIso 1⟩]
          else if ts = "this week" then [⟨"date_after", "gte", denv.daysAgoIso 7⟩]
          else if ts = "last week" then [⟨"date_after", "gte", denv.daysAgoIso 14⟩]
          else if ts = "this month" then [⟨"date_after", "gte", denv.daysAgoIso 30⟩]
          else if ts = "last month" then [⟨"date_after", "gte", denv.daysAgoIso 60⟩]
          else if ts = "recent" ∨ ts = "recently" ∨ ts = "latest"
              ∨ ts = "most recent" then
            [⟨"date_after", "gte", denv.daysAgoIso 30⟩]
          else []
  entityFilters ++ temporalFilters

/-- `RetrievalRouter._select_methods` (router.py lines 576-608). -/
def select_methods (reg : Registry) (source query : String)
    (filters : List FilterClause) (intent : Intent) : List String :=
  match reg.get source with
  | none => ["vector"]
  | some caps =>
      let supported := caps.supportedMethods
      let hasFilters := !filters.isEmpty
      let hasQuery := pyStrip query ≠ ""
      let hasTemporal := (intent.temporal.getD "") ≠ ""
      let methods :=
        (if (hasFilters ∨ hasTemporal) ∧ "structured" ∈ supported
          then ["structured"] else []) ++
        (if hasQuery ∧ "fulltext" ∈ supported then ["fulltext"] else []) ++
        (if hasQuery ∧ "vector" ∈ supported then ["vector"] else [])
      if methods ≠ [] then methods
      else if hasQuery ∧ "vector" ∈ supported then ["vector"]
      else if "structured" ∈ supported then ["structured"]
      else match supported with
        | [] => []
        | m :: _ => [m]

/-- `RetrievalRouter._filter_for_source` (router.py lines 610-618): keep
only filters whose field the source's capability declares. -/
def filter_for_source (reg : Registry) (source : String)
    (filters : List FilterClause) : List FilterClause :=
  match reg.get source with
  | none => []
  | some caps =>
      filters.filter (fun f => f.field ∈ caps.supportedFilters.map (·.name))

/-- `RetrievalRouter._extract_mode_and_group_by` (router.py lines 197-227). -/
def extract_mode_and_group_by (reg : Registry) (intent : Intent)
    (sources : List String) : SearchMode × Option String × ℤ :=
  let modeRaw :=
    pyLower (pyStrip (if intent.searchMode ≠ "" then intent.searchMode else "search"))
  let mode := (parseSearchMode modeRaw).getD .search
  if mode ≠ .aggregate then (mode, none, 10)
  else
    let topNRaw := if intent.aggregateTopN = 0 then 10 else intent.aggregateTopN
    let topN := min 100 (max 1 topNRaw)
    let requested := pyStrip ((intent.aggregateGroupBy).getD "")
    let viaRequested :=
      if requested ≠ "" then
        if sources.any (fun src => reg.supportsGroupBy src requested)
        then some (SearchMode.aggregate, some requested, topN) else none
      else none
    match viaRequested with
    | some r => r
    | none =>
        match sources.findSome? (fun src =>
          match reg.get src with
          | none => none
          | some caps =>
              match caps.supportedGroupByFields with
              | [] => none
              | f :: _ => some f) with
        | some f => (SearchMode.aggregate, some f, topN)
        | none => (SearchMode.search, none, 10)

/-- `RetrievalRouter._classify_complexity` (router.py lines 229-242). -/
def classify_complexity (intent : Intent) : RoutingComplexity :=
  if intent.complexity = "multi_hop" then .complex
  else if (intent.retrievalPlan.getD []).length > 1 then .complex
  else if intent.sourceHints.length > 1 then .complex
  else if intent.entities.length > 3 then .complex
  else .simple

/-- The alias-regex source scorer `_match_sources_from_text`
(router.py lines 318-414) is pure and total; no claim concerns its
internals, so it is an environment function: text, threshold, top_n ↦
matches. -/
structure RouterEnv where
  matchSources : String → ℚ → Option ℕ → List SourceMatch

/-- `" ".join(str(h or "") for h in hints)`. -/
def joinSpace (hints : List String) : String :=
  String.intercalate " " hints

/-- `RetrievalRouter._select_sources` (router.py lines 244-278). -/
def select_sources (renv : RouterEnv) (reg : Registry) (intent : Intent)
    (query : String) : List String × Bool × List SourceMatch :=
  if reg.allSources = [] then ([], false, [])
  else
    let hintBranch :=
      if intent.sourceHints ≠ [] then
        let hm := renv.matchSources (joinSpace intent.sourceHints) (3/10) (some 3)
        if hm ≠ [] then some (hm.map (·.source), false, hm) else none
      else none
    match hintBranch with
    | some r => r
    | none =>
        let qm := renv.matchSources query (3/10) (some 3)
        if qm ≠ [] then (qm.map (·.source), false, qm)
        else
          let personal := reg.personalSources
          let sources :=
            if personal ≠ [] then stableSortBy (fun a b => a < b) personal
            else stableSortBy (fun a b => a < b) reg.allSources
          (sources, true, [])

/-- The per-source decision construction shared by `route` and
`decisions_for_sources` (router.py lines 126-142 and 179-194). -/
def buildDecision (reg : Registry) (source query : String)
    (filters : List FilterClause) (intent : Intent) (mode : SearchMode)
    (groupBy : Option String) (aggregateTopN : ℤ) : RoutingDecision :=
  let methods := select_methods reg source query filters intent
  let sourceFilters := filter_for_source reg source filters
  let srcGroupBy :=
    match groupBy with
    | some g => if g ≠ "" ∧ reg.supportsGroupBy source g then some g else none
    | none => none
  { source, methods, query, filters := sourceFilters, mode,
    groupBy := srcGroupBy, aggregateTopN }

/-- `RetrievalRouter.route` (router.py lines 114-157) over a typed intent
(the shape the deterministic analyzer always produces); `route_raw` below
performs the same steps reading the raw intent dict, which is what
`search` runs. -/
def route (renv : RouterEnv) (denv : DateEnv) (reg : Registry)
    (intent : Intent) (query : String) : RoutingPlan :=
  let complexity := classify_complexity intent
  let (targetSources, usedDefaultSources, sourceMatches) :=
    select_sources renv reg intent query
  let filters := extract_filters denv intent
  let (mode, groupBy, aggregateTopN) :=
    extract_mode_and_group_by reg intent targetSources
  let decisions := targetSources.map (fun source =>
    buildDecision reg source query filters intent mode groupBy aggregateTopN)
  { decisions, complexity, usedDefaultSources, sourceMatches }

/-- `RetrievalRouter.decisions_for_sources` (router.py lines 159-195) over
a typed intent; unknown sources are skipped and `extra_filters` are
appended before per-source filtering.  `decisions_for_sources_raw` below
is the same construction reading the raw intent dict. -/
def decisions_for_sources (denv : DateEnv) (reg : Registry)
    (sources : List String) (query : String) (intent : Intent)
    (extraFilters : Option (List FilterClause)) : List RoutingDecision :=
  let filters0 := extract_filters denv intent
  let filters :=
    match extraFilters with
    | some extra => if extra.isEmpty then filters0 else filters0 ++ extra
    | none => filters0
  let (mode, groupBy, aggregateTopN) :=
    extract_mode_and_group_by reg intent sources
  (sources.filter (fun s => s ∈ reg.allSources)).map (fun source =>
    buildDecision reg source query filters intent mode groupBy aggregateTopN)

/-! ## Deterministic intent analyzer (src/orchestrators/search/intent_modules.py) -/

/-- Round-half-to-even on ℚ (the behaviour of Python's `round`). -/
def roundHalfEven (q : ℚ) : ℤ :=
  let f := ⌊q⌋
  let frac := q - f
  if frac < 1/2 then f
  else if frac > 1/2 then f + 1
  else if f % 2 = 0 then f else f + 1

/-- Python `round(q, 3)`. -/
def pyRound3 (q : ℚ) : ℚ := (roundHalfEven (1000 * q) : ℚ) / 1000

/-- Output of `_extract_temporal`: normalized token + confidence. -/
structure TemporalSignal where
  value : Option String := none
  confidence : ℚ := 0
deriving DecidableEq, Repr

/-- Output of `_extract_entities`. -/
structure EntitySignal where
  value : List IntentEntity := []
  confidence : ℚ := 0
deriving DecidableEq, Repr

/-- Output of `_extract_query_type` (the `value` dict fields it can set). -/
structure QueryTypeSignal where
  searchMode : String := "search"
  aggregateTopN : Option ℤ := none
  confidence : ℚ := 0
deriving DecidableEq, Repr

/-- `DeterministicIntentAnalyzer._extract_source_hints`
(intent_modules.py lines 116-128): stable sort by (−confidence, source),
hints in that order, confidence `min(1, max(...))`. -/
def extract_source_hints (ms : List SourceMatch) : List String × ℚ :=
  match ms with
  | [] => ([], 0)
  | m :: rest =>
      let ordered := stableSortBy
        (fun a b => a.confidence > b.confidence
          ∨ (a.confidence = b.confidence ∧ a.source < b.source))
        (m :: rest)
      let best := (rest.map (·.confidence)).foldl max m.confidence
      (ordered.map (·.source), min 1 best)

/-- Result of `DeterministicIntentAnalyzer.analyze`. -/
structure DeterministicResult where
  intent : Intent
  aggregateConfidence : ℚ
  sourceConfidence : ℚ
  shouldUseDeterministic : Bool
deriving DecidableEq, Repr

/-- `DeterministicIntentAnalyzer.analyze` (intent_modules.py lines 52-114).
The four regex extractors are pure functions of the query; their outputs
(`source_matches` is computed by the router and passed in) are the inputs
here, and the aggregation, fast-path merge and confidence gate are embedded
from the source. -/
def analyze (sourceMatches : List SourceMatch) (temporalSig : TemporalSignal)
    (entitySig : EntitySignal) (queryTypeSig : QueryTypeSignal)
    (fastPathPlan : Option (List PlanStep)) : DeterministicResult :=
  let (hints, srcConf0) := extract_source_hints sourceMatches
  let fastPlanTruthy :=
    match fastPathPlan with
    | some plan => !plan.isEmpty
    | none => false
  let retrievalPlan := if fastPlanTruthy then fastPathPlan else none
  let complexity := if fastPlanTruthy then "multi_hop" else "simple"
  let srcConf := if fastPlanTruthy then max srcConf0 (7/10) else srcConf0
  let aggregateConfidence := pyRound3
    (srcConf * (45/100) + queryTypeSig.confidence * (25/100)
      + temporalSig.confidence * (15/100) + entitySig.confidence * (15/100))
  let shouldUse :=
    decide (srcConf ≥ 11/20) || decide (aggregateConfidence ≥ 11/20)
  { intent :=
      { intentLabel := "find_information"
        entities := entitySig.value
        temporal := temporalSig.value
        sourceHints := hints
        complexity := complexity
        retrievalPlan := retrievalPlan
        searchMode := queryTypeSig.searchMode
        aggregateGroupBy := none
        aggregateTopN := queryTypeSig.aggregateTopN.getD 10 }
    aggregateConfidence
    sourceConfidence := srcConf
    shouldUseDeterministic := shouldUse }

/-! ## Refinement policy (src/orchestrators/search/orchestrator.py 327-469) -/

/-- `RefinementReason` enum. -/
inductive RefinementReason where
  | noResults
  | lowSourceCoverage
  | lowConfidence
  | singleSource
deriving DecidableEq, Repr

/-- `RefinementReason` string values. -/
def RefinementReason.value : RefinementReason → String
  | .noResults => "no_results"
  | .lowSourceCoverage => "low_source_coverage"
  | .lowConfidence => "low_confidence"
  | .singleSource => "single_source"

/-- `_intent_complexity`: normalize the raw complexity payload, with
`ValueError` falling back to `simple`. -/
def intentComplexityOf (value : String) : String :=
  let norm := pyLower (pyStrip (if value = "" then "simple" else value))
  if norm = "simple" ∨ norm = "multi_hop" then norm else "simple"

/-- `max(r.scores.values())` with `0.0` for an empty score dict. -/
def resultMaxScore (r : SearchResult) : ℚ :=
  match r.scores with
  | [] => 0
  | p :: rest => (rest.map (·.2)).foldl max p.2

/-- `UniversalSearchOrchestrator._should_refine` (orchestrator.py 327-377)
over a typed intent; `should_refine_raw` below reads the raw intent dict
and can raise on an ill-typed `source_hints`. -/
def should_refine (results : List SearchResult) (intent : Intent)
    (decisions : List RoutingDecision) : Bool × Option RefinementReason :=
  let complexity := intentComplexityOf intent.complexity
  if results = [] then
    let hasFilters := decisions.any (fun d => !d.filters.isEmpty)
    if hasFilters ∧ complexity = "simple" then (false, none)
    else (true, some .noResults)
  else if results.length < 3 then (true, some .lowSourceCoverage)
  else
    let scores := results.map resultMaxScore
    let avgScore := scores.sum / (scores.length : ℚ)
    if avgScore < 7/10 then (true, some .lowConfidence)
    else
      let sources := pySetList (results.map (·.source))
      if sources.length = 1 ∧ intent.sourceHints.length > 1 then
        if complexity = "multi_hop" then (false, none)
        else (true, some .singleSource)
      else (false, none)

/-- `UniversalSearchOrchestrator._refine` (orchestrator.py 379-469): the
four deterministic adjustment strategies, capped at 4 decisions. -/
def refine (reg : Registry) (reason : RefinementReason)
    (results : List SearchResult) (previousDecisions : List RoutingDecision) :
    List RoutingDecision :=
  let refined : List RoutingDecision :=
    match reason with
    | .noResults =>
        previousDecisions.map (fun d =>
          let methods :=
            if reg.canHandle d.source "structured" then ["vector", "structured"]
            else ["vector"]
          ({ source := d.source, methods, query := d.query,
             filters := [] } : RoutingDecision))
    | .lowSourceCoverage =>
        let actual := pySetList (results.map (·.source))
        (previousDecisions.filter (fun d => d.source ∉ actual)).map (fun d =>
          ({ source := d.source, methods := d.methods, query := d.query,
             filters := [] } : RoutingDecision))
    | .lowConfidence =>
        previousDecisions.filterMap (fun d =>
          let newMethods :=
            (if "fulltext" ∉ d.methods ∧ reg.canHandle d.source "fulltext"
              then ["fulltext"] else []) ++
            (if "vector" ∉ d.methods ∧ reg.canHandle d.source "vector"
              then ["vector"] else [])
          if newMethods = [] then none
          else some ({ source := d.source, methods := newMethods,
                       query := d.query, filters := d.filters } : RoutingDecision))
    | .singleSource =>
        let actual := pySetList (results.map (·.source))
        (previousDecisions.filter (fun d => d.source ∉ actual)).map (fun d =>
          ({ source := d.source, methods := d.methods, query := d.query,
             filters := d.filters } : RoutingDecision))
  refined.take 4

/-! ## Raw language-model intent dicts

`_analyze_intent` returns whatever `_parse_json_object` produced: an
arbitrary JSON value.  The orchestrator and router consume that value with
plain `dict.get` reads, and several of those reads raise on ill-typed
fields (`len()` of a non-sized `retrieval_plan`, iteration over a
non-iterable `source_hints` or `entities`, `.strip()` on a non-string
entity name, `int()` of a non-numeric `aggregate_top_n`).  This section
embeds those reads over the raw value, failing (`.error`) exactly where
the Python raises, and lazily in the same program order. -/

/-- The raw intent dict (the result of `json.loads` when it is an object). -/
abbrev RawIntent := List (String × JVal)

/-- `intent.get(k)`: absent keys read as `None`. -/
def rawGet (raw : RawIntent) (k : String) : JVal :=
  (raw.lookup k).getD .jnull

/-- Python `len(v)`: defined for strings, lists and dicts, a `TypeError`
otherwise. -/
def pyLenSized : JVal → Except Unit ℕ
  | .jstr s => .ok s.data.length
  | .jarr xs => .ok xs.length
  | .jobj fs => .ok fs.length
  | _ => .error ()

/-- Python `len(v or [])`. -/
def lenOrEmpty (v : JVal) : Except Unit ℕ :=
  if v.truthy then pyLenSized v else .ok 0

/-- Python `str(v or default)` (container rendering approximated by
`JVal.pyStr`; every consumer only compares the result against fixed
keyword strings or feeds it to the alias-match oracle). -/
def pyStrOr (v : JVal) (dflt : String) : String :=
  if v.truthy then v.pyStr else dflt

/-- Digits of a Python integer literal after the first digit: single
underscores are allowed between digits. -/
def pyDigitsGo : ℕ → List Char → Option ℕ
  | acc, [] => some acc
  | acc, '_' :: c :: rest =>
      if c.isDigit then pyDigitsGo (acc * 10 + (c.toNat - 48)) rest else none
  | acc, c :: rest =>
      if c.isDigit then pyDigitsGo (acc * 10 + (c.toNat - 48)) rest else none

/-- A non-empty run of digits (with single interior underscores). -/
def pyDigitsStart : List Char → Option ℕ
  | c :: rest => if c.isDigit then pyDigitsGo (c.toNat - 48) rest else none
  | [] => none

/-- Python `int(s)` for a string: optional sign and digits after stripping
whitespace, `ValueError` otherwise. -/
def pyIntOfStr (s : String) : Except Unit ℤ :=
  match (pyStrip s).data with
  | '+' :: rest =>
      match pyDigitsStart rest with
      | some n => .ok (n : ℤ)
      | none => .error ()
  | '-' :: rest =>
      match pyDigitsStart rest with
      | some n => .ok (-(n : ℤ))
      | none => .error ()
  | t =>
      match pyDigitsStart t with
      | some n => .ok (n : ℤ)
      | none => .error ()

/-- Python `int(v)`: numbers truncate toward zero, booleans map to 0/1,
strings are parsed, everything else is a `TypeError`. -/
def pyInt : JVal → Except Unit ℤ
  | .jnum q => .ok (Int.tdiv q.num q.den)
  | .jbool b => .ok (if b then 1 else 0)
  | .jstr s => pyIntOfStr s
  | _ => .error ()

/-- `_intent_complexity(intent.get("complexity"))` over the raw value
(orchestrator.py 91-96): total for every JSON value. -/
def complexityOfRaw (raw : RawIntent) : String :=
  intentComplexityOf (pyStrOr (rawGet raw "complexity") "")

/-- `[str(h or "") for h in hints]` with `hints = .get("source_hints") or []`
(router.py 255-257): iterating a truthy number or boolean raises. -/
def hintStrings (v : JVal) : Except Unit (List String) :=
  if v.truthy then
    match v with
    | .jarr l => .ok (l.map (fun h => if h.truthy then h.pyStr else ""))
    | .jstr s => .ok (s.data.map (fun c => String.mk [c]))
    | .jobj l => .ok (l.map (·.1))
    | _ => .error ()
  else .ok []

/-- Python `(v or "").strip()`: raises `AttributeError` on a truthy
non-string. -/
def pyStripOrRaise (v : JVal) : Except Unit String :=
  if v.truthy then
    match v with
    | .jstr s => .ok (pyStrip s)
    | _ => .error ()
  else .ok ""

/-- The filter clauses one dict-shaped entity contributes
(router.py 495-512): `(entity.get("name") or "").strip()` raises on a
truthy non-string. -/
def entityFilterOf (e : List (String × JVal)) : Except Unit (List FilterClause) := do
  let role := (e.lookup "role").getD (.jstr "")
  let name ← pyStripOrRaise ((e.lookup "name").getD .jnull)
  let email ← pyStripOrRaise ((e.lookup "email").getD .jnull)
  if role.isStr "sender" then
    .ok ((if name ≠ "" then [⟨"from_name", "contains", name⟩] else []) ++
         (if email ≠ "" then [⟨"from_email", "contains", email⟩] else []))
  else if role.isStr "recipient" ∧ name ≠ "" then
    .ok [⟨"to_email", "contains", name⟩]
  else .ok []

/-- The entity loop of `_extract_filters` (router.py 493-512): non-dict
elements are skipped; iterating a truthy number or boolean raises; a
string iterates its characters and a dict its keys, none of which are
dicts, so both contribute nothing. -/
def entityFiltersRaw (v : JVal) : Except Unit (List FilterClause) :=
  if v.truthy then
    match v with
    | .jarr l =>
        l.foldlM (fun acc el =>
          match el with
          | .jobj e => do
              let fs ← entityFilterOf e
              .ok (acc ++ fs)
          | _ => .ok acc) []
    | .jstr _ => .ok []
    | .jobj _ => .ok []
    | _ => .error ()
  else .ok []

/-- The temporal branch of `_extract_filters` (router.py 514-573) given the
normalized temporal string. -/
def temporalFiltersOf (denv : DateEnv) (ts : String) : List FilterClause :=
  if ts = "today" then [⟨"date_after", "gte", denv.daysAgoIso 0⟩]
  else if ts = "yesterday" then
    [⟨"date_after", "gte", denv.daysAgoIso 1⟩,
     ⟨"date_before", "lte", denv.daysAgoIso 1⟩]
  else if ts = "this week" then [⟨"date_after", "gte", denv.daysAgoIso 7⟩]
  else if ts = "last week" then [⟨"date_after", "gte", denv.daysAgoIso 14⟩]
  else if ts = "this month" then [⟨"date_after", "gte", denv.daysAgoIso 30⟩]
  else if ts = "last month" then [⟨"date_after", "gte", denv.daysAgoIso 60⟩]
  else if ts = "recent" ∨ ts = "recently" ∨ ts = "latest"
      ∨ ts = "most recent" then
    [⟨"date_after", "gte", denv.daysAgoIso 30⟩]
  else []

/-- `RetrievalRouter._extract_filters` over the raw intent dict
(router.py 489-574). -/
def extract_filters_raw (denv : DateEnv) (raw : RawIntent) :
    Except Unit (List FilterClause) := do
  let entityFilters ← entityFiltersRaw (rawGet raw "entities")
  let temporal := rawGet raw "temporal"
  let temporalFilters :=
    if temporal.truthy then temporalFiltersOf denv (pyStrip (pyLower temporal.pyStr))
    else []
  .ok (entityFilters ++ temporalFilters)

/-- `RetrievalRouter._extract_mode_and_group_by` over the raw intent dict
(router.py 197-227): `int(intent.get("aggregate_top_n", 10) or 10)` runs
only in aggregate mode and raises on non-numeric values. -/
def mode_group_top_raw (reg : Registry) (raw : RawIntent)
    (sources : List String) : Except Unit (SearchMode × Option String × ℤ) :=
  let modeRaw := pyLower (pyStrip (pyStrOr (rawGet raw "search_mode") "search"))
  let mode := (parseSearchMode modeRaw).getD .search
  if mode ≠ .aggregate then .ok (mode, none, 10)
  else do
    let tv := (raw.lookup "aggregate_top_n").getD (.jnum 10)
    let topN0 ← pyInt (if tv.truthy then tv else .jnum 10)
    let topN := min 100 (max 1 topN0)
    let requested := pyStrip (pyStrOr (rawGet raw "aggregate_group_by") "")
    let viaRequested :=
      if requested ≠ "" then
        if sources.any (fun src => reg.supportsGroupBy src requested)
        then some (SearchMode.aggregate, some requested, topN) else none
      else none
    match viaRequested with
    | some r => .ok r
    | none =>
        match sources.findSome? (fun src =>
          match reg.get src with
          | none => none
          | some caps =>
              match caps.supportedGroupByFields with
              | [] => none
              | f :: _ => some f) with
        | some f => .ok (SearchMode.aggregate, some f, topN)
        | none => .ok (SearchMode.search, none, 10)

/-- `RetrievalRouter._classify_complexity` over the raw intent dict
(router.py 229-242): the `retrieval_plan` length is guarded by
`isinstance(plan, list)`, but `len()` of the `source_hints` and
`entities` values raises on truthy non-sized values, lazily in the
short-circuit order of the source. -/
def classify_complexity_raw (raw : RawIntent) :
    Except Unit RoutingComplexity :=
  if (rawGet raw "complexity").isStr "multi_hop" then .ok .complex
  else
    let plan := rawGet raw "retrieval_plan"
    let planL := if plan.truthy then plan else .jarr []
    if (match planL with
        | .jarr l => decide (l.length > 1)
        | _ => false) then .ok .complex
    else do
      let nh ← lenOrEmpty (rawGet raw "source_hints")
      if nh > 1 then .ok .complex
      else do
        let ne ← lenOrEmpty (rawGet raw "entities")
        if ne > 3 then .ok .complex else .ok .simple

/-- The only part of the intent `_select_methods` reads is the truthiness
of `temporal` (router.py 586); this synthetic typed intent carries exactly
that bit into the shared `select_methods`/`buildDecision`. -/
def tempOnlyIntent (raw : RawIntent) : Intent :=
  { temporal := if (rawGet raw "temporal").truthy then some "x" else none }

/-- `RetrievalRouter._select_sources` over the raw intent dict
(router.py 244-278): the hint strings are extracted (raising on a truthy
non-iterable `source_hints`) and the rest of the selection is the shared
code path. -/
def select_sources_raw (renv : RouterEnv) (reg : Registry) (raw : RawIntent)
    (query : String) : Except Unit (List String × Bool × List SourceMatch) :=
  if reg.allSources = [] then .ok ([], false, [])
  else do
    let hints ← hintStrings (rawGet raw "source_hints")
    .ok (select_sources renv reg { sourceHints := hints } query)

/-- `RetrievalRouter.route` over the raw intent dict (router.py 114-157),
consuming the intent fields in the source's order: classification, source
selection, filter extraction, mode extraction, per-source decisions. -/
def route_raw (renv : RouterEnv) (denv : DateEnv) (reg : Registry)
    (raw : RawIntent) (query : String) : Except Unit RoutingPlan := do
  let complexity ← classify_complexity_raw raw
  let (targetSources, usedDefaultSources, sourceMatches) ←
    select_sources_raw renv reg raw query
  let filters ← extract_filters_raw denv raw
  let (mode, groupBy, aggregateTopN) ← mode_group_top_raw reg raw targetSources
  let decisions := targetSources.map (fun source =>
    buildDecision reg source query filters (tempOnlyIntent raw) mode groupBy
      aggregateTopN)
  .ok { decisions, complexity, usedDefaultSources, sourceMatches }

/-- `RetrievalRouter.decisions_for_sources` over the raw intent dict
(router.py 159-195). -/
def decisions_for_sources_raw (denv : DateEnv) (reg : Registry)
    (raw : RawIntent) (sources : List String) (query : String)
    (extraFilters : Option (List FilterClause)) :
    Except Unit (List RoutingDecision) := do
  let filters0 ← extract_filters_raw denv raw
  let filters :=
    match extraFilters with
    | some extra => if extra.isEmpty then filters0 else filters0 ++ extra
    | none => filters0
  let (mode, groupBy, aggregateTopN) ← mode_group_top_raw reg raw sources
  .ok ((sources.filter (· ∈ reg.allSources)).map (fun source =>
    buildDecision reg source query filters (tempOnlyIntent raw) mode groupBy
      aggregateTopN))

/-- `UniversalSearchOrchestrator._should_refine` over the raw intent dict
(orchestrator.py 327-377): the single-source trigger reads
`intent.get("source_hints", [])` — with no `or []` — and takes `len()` of
the stored value, raising even on a stored `null` when that trigger is
reached. -/
def should_refine_raw (results : List SearchResult) (raw : RawIntent)
    (decisions : List RoutingDecision) :
    Except Unit (Bool × Option RefinementReason) :=
  let complexity := complexityOfRaw raw
  if results = [] then
    let hasFilters := decisions.any (fun d => !d.filters.isEmpty)
    if hasFilters ∧ complexity = "simple" then .ok (false, none)
    else .ok (true, some .noResults)
  else if results.length < 3 then .ok (true, some .lowSourceCoverage)
  else
    let scores := results.map resultMaxScore
    let avgScore := scores.sum / (scores.length : ℚ)
    if avgScore < 7/10 then .ok (true, some .lowConfidence)
    else
      let sources := pySetList (results.map (·.source))
      if sources.length = 1 then do
        let nh ← pyLenSized ((raw.lookup "source_hints").getD (.jarr []))
        if nh > 1 then
          if complexity = "multi_hop" then .ok (false, none)
          else .ok (true, some .singleSource)
        else .ok (false, none)
      else .ok (false, none)

/-- `_validate_retrieval_plan` over the raw plan value
(orchestrator.py 40-55): a valid plan is a list of at least two dicts,
each with a non-empty `sources` list whose members are all known source
names (a non-string member is never `in` the set of names, so it
invalidates the plan).  The validated steps keep their raw dict form. -/
def validate_retrieval_plan_raw (plan : JVal) (availableSources : List String) :
    Option (List (List (String × JVal))) :=
  match plan with
  | .jarr steps =>
      if steps.length < 2 then none
      else
        steps.mapM (fun st =>
          match st with
          | .jobj e =>
              match (e.lookup "sources").getD .jnull with
              | .jarr ss =>
                  if ss.isEmpty then none
                  else if ss.all (fun s =>
                    match s with
                    | .jstr s => s ∈ availableSources
                    | _ => false) then some e
                  else none
              | _ => none
          | _ => none)
  | _ => none

/-- The JSON form of one deterministic retrieval-plan step (the dicts
built by `_build_fast_path_retrieval_plan`, router.py 477-487; the unread
`step` label is omitted). -/
def rawPlanStep (st : PlanStep) : JVal :=
  .jobj [("sources", .jarr (st.sources.map .jstr)),
         ("query_focus", .jstr st.queryFocus),
         ("entity_from_previous", .jbool st.entityFromPrevious)]

/-- The intent dict built by `DeterministicIntentAnalyzer.analyze`
(intent_modules.py 86-96) for a typed deterministic intent.  Entity dicts
carry all three keys; an absent key and an empty-string value are
indistinguishable to every consumer (`entity.get(..) or ""`). -/
def rawOfIntent (i : Intent) : RawIntent :=
  [("intent", .jstr i.intentLabel),
   ("entities", .jarr (i.entities.map (fun e =>
      .jobj [("role", .jstr e.role), ("name", .jstr e.name),
             ("email", .jstr e.email)]))),
   ("temporal", match i.temporal with
     | some t => .jstr t
     | none => .jnull),
   ("source_hints", .jarr (i.sourceHints.map .jstr)),
   ("complexity", .jstr i.complexity),
   ("retrieval_plan", match i.retrievalPlan with
     | some ps => .jarr (ps.map rawPlanStep)
     | none => .jnull),
   ("search_mode", .jstr i.searchMode),
   ("aggregate_group_by", match i.aggregateGroupBy with
     | some g => .jstr g
     | none => .jnull),
   ("aggregate_top_n", .jnum i.aggregateTopN)]

/-- The recovery-default intent dict `_parse_json_object` returns when the
language-model output is not parseable JSON (orchestrator.py 189-198). -/
def defaultLMIntent : RawIntent :=
  [("intent", .jstr "find_information"),
   ("entities", .jarr []),
   ("temporal", .jnull),
   ("source_hints", .jarr []),
   ("complexity", .jstr "simple"),
   ("retrieval_plan", .jnull)]

/-! ### Well-typed intent dicts

A decidable sufficient condition on a raw intent dict under which every
consumption site succeeds, so `search` cannot raise while consuming it. -/

/-- Values Python's `len()` accepts. -/
def sizedOk : JVal → Bool
  | .jstr _ => true
  | .jarr _ => true
  | .jobj _ => true
  | _ => false

/-- `len(v or [])` succeeds. -/
def lenArgOk (v : JVal) : Bool := !v.truthy || sizedOk v

/-- `(v or "").strip()` succeeds. -/
def strFieldOk (v : JVal) : Bool :=
  !v.truthy || (match v with
    | .jstr _ => true
    | _ => false)

/-- One entity element is consumed without raising. -/
def entityOk : JVal → Bool
  | .jobj e =>
      strFieldOk ((e.lookup "name").getD .jnull) &&
      strFieldOk ((e.lookup "email").getD .jnull)
  | _ => true

/-- The `entities` value is consumed without raising at every site. -/
def entitiesOk (v : JVal) : Bool :=
  !v.truthy || (match v with
    | .jarr l => l.all entityOk
    | .jstr _ => true
    | .jobj _ => true
    | _ => false)

/-- `int(v)` succeeds (given `v` truthy). -/
def intArgOk : JVal → Bool
  | .jnum _ => true
  | .jbool _ => true
  | .jstr s =>
      match pyIntOfStr s with
      | .ok _ => true
      | .error _ => false
  | _ => false

/-- A stored `source_hints` value is sized (the single-source refinement
trigger takes `len()` of the stored value itself, with no `or []`). -/
def hintsFieldOk (raw : RawIntent) : Bool :=
  match raw.lookup "source_hints" with
  | none => true
  | some v => sizedOk v

/-- `int(intent.get("aggregate_top_n", 10) or 10)` succeeds. -/
def topNArgOk (raw : RawIntent) : Bool :=
  let tv := (raw.lookup "aggregate_top_n").getD (.jnum 10)
  !tv.truthy || intArgOk tv

/-- Every consumption of the dict's partial fields succeeds: a sized
`source_hints` whenever the key is present, a `len()`-safe
`retrieval_plan`, consumable `entities`, and an `int()`-safe
`aggregate_top_n`. -/
def WellTypedIntentDict (raw : RawIntent) : Bool :=
  lenArgOk (rawGet raw "retrieval_plan") && hintsFieldOk raw &&
  entitiesOk (rawGet raw "entities") && topNArgOk raw

/-- Whether the language model's parsed output is a dict all of whose
consumption sites succeed. -/
def IntentDictOk : JVal → Bool
  | .jobj raw => WellTypedIntentDict raw
  | _ => false

/-! ## Orchestrator (src/orchestrators/search/orchestrator.py) -/

/-- First `n` characters of a string (Python `s[:n]` for `n ≥ 0`). -/
def pyStrTake (n : ℕ) (s : String) : String :=
  ⟨s.data.take n⟩

/-- `_default_query_from_context` (orchestrator.py lines 78-88). -/
def default_query_from_context (context : String) : String :=
  if pyStrip context = "" then ""
  else
    let firstLine := pyStrip ((splitLines (pyStrip context)).headD "")
    if firstLine = "" then ""
    else
      let stripped :=
        if startsWithStr firstLine "User:" then pyStrip (pyStrDrop 5 firstLine)
        else if startsWithStr firstLine "Assistant:" then
          pyStrip (pyStrDrop 10 firstLine)
        else if startsWithStr firstLine "user:" then
          pyStrip (pyStrDrop 5 firstLine)
        else if startsWithStr firstLine "assistant:" then
          pyStrip (pyStrDrop 10 firstLine)
        else firstLine
      if stripped = "" then "" else pyStrTake 200 stripped

/-- The orchestrator's external world: registry, dispatcher registrations,
call functions, direct backends, the JSON library, the router's alias
scorer and fast-path inference, the three pure intent extractors as
functions of the query, the language-model intent fallback outcome (the
raised exception or the parsed JSON value, `_parse_json_object` returning
its default dict on undecodable output), the
per-step entity-extraction LM outcome (already rendered as
`entity.to_filters()`), and the date environment. -/
structure OrchestratorEnv where
  reg : Registry
  dispatcher : DispatcherState
  mcpCallFn : ℕ → List (String × JVal) → Except Unit (List (String × JVal))
  directBackends :
    List (String × (String → List String → List FilterClause → ℤ →
      Except Unit (List SearchResult)))
  parseJson : String → Option JVal
  matchSources : String → ℚ → Option ℕ → List SourceMatch
  fastPathIntent : String → Option Intent
  temporalSig : String → TemporalSignal
  entitySig : String → EntitySignal
  queryTypeSig : String → QueryTypeSignal
  lmIntent : Except Unit JVal
  entityLm : ℕ → Except Unit (List FilterClause)
  dates : DateEnv

/-- The `unified_search` arguments `_execute_one` has the dispatcher build:
`top_k` is the literal `10` of orchestrator.py line 274. -/
def execute_one_mcp_args (d : RoutingDecision) : List (String × JVal) :=
  buildUnifiedSearchArgs d.source d.query d.methods d.filters 10 d.mode.value
    d.sortField d.sortOrder d.groupBy d.aggregateTopN

/-- `UniversalSearchOrchestrator._execute_one` (orchestrator.py 258-325):
MCP dispatcher preferred, then direct backend (called with the literal
`top_k=10` of line 301), both with thrown exceptions converted to error
strings (exception text is not modelled). -/
def execute_one (env : OrchestratorEnv) (d : RoutingDecision) :
    List SearchResult × List String × DispatcherResult :=
  if (env.dispatcher.mcpCallers.lookup d.source).isSome then
    match (match env.dispatcher.mcpCallers.lookup d.source with
           | none => .ok { source := d.source, mode := .jstr d.mode.value }
           | some token =>
              match env.mcpCallFn token (execute_one_mcp_args d) with
              | .error _ => .ok { source := d.source, mode := .jstr d.mode.value }
              | .ok result =>
                  parse_response env.parseJson result d.source d.mode.value :
        Except Unit DispatcherResult) with
    | .ok dres => (dres.results, [], dres)
    | .error _ =>
        ([], [d.source ++ ": MCP call failed: <exception>"],
         { source := d.source, mode := .jstr d.mode.value })
  else
    match env.directBackends.lookup d.source with
    | some backend =>
        match backend d.query d.methods d.filters 10 with
        | .ok results =>
            (results, [], { results, source := d.source, mode := .jstr "search" })
        | .error _ =>
            ([], [d.source ++ ": <exception>"],
             { source := d.source, mode := .jstr "search" })
    | none =>
        ([], ["No handler for source '" ++ d.source ++ "'"],
         { source := d.source, mode := .jstr d.mode.value })

/-- Accumulated outcome of one parallel fan-out
(`_execute_routing`, orchestrator.py 203-256): results and errors in
decision order, first non-null count and first non-empty aggregates. -/
structure ExecOutcome where
  results : List SearchResult := []
  errors : List String := []
  count : Option JVal := none
  aggregates : List AggregateGroup := []
  countSource : Option String := none
  aggregatesSource : Option String := none

/-- `UniversalSearchOrchestrator._execute_routing`. -/
def execute_routing (env : OrchestratorEnv)
    (decisions : List RoutingDecision) : ExecOutcome :=
  decisions.foldl (fun acc d =>
    let (partResults, partErrors, dres) := execute_one env d
    let acc := { acc with results := acc.results ++ partResults,
                          errors := acc.errors ++ partErrors }
    let acc :=
      if dres.count.isSome ∧ acc.countSource.isNone then
        { acc with count := dres.count, countSource := some dres.source }
      else acc
    if !dres.aggregates.isEmpty ∧ acc.aggregatesSource.isNone then
      { acc with aggregates := dres.aggregates,
                 aggregatesSource := some dres.source }
    else acc) {}

/-- `extract_entity` as called by `_run_multihop`: `capability_lookup` is
not passed, so the metadata-rule path yields nothing and the LM fallback
decides, with a thrown LM exception caught and an empty entity returned
(entity_extraction.py 112-126). -/
def extract_entity_filters (lmOutcome : Except Unit (List FilterClause)) :
    List FilterClause :=
  match lmOutcome with
  | .error _ => []
  | .ok fs => fs

/-- State threaded through `_run_multihop` (orchestrator.py 471-603). -/
structure MultihopState where
  allResults : List SearchResult := []
  allDecisions : List RoutingDecision := []
  errors : List String := []
  count : Option JVal := none
  aggregates : List AggregateGroup := []
  countSource : Option String := none
  aggregatesSource : Option String := none
  extraFilters : Option (List FilterClause) := none

/-- One iteration of the `_run_multihop` step loop (orchestrator.py
496-591) over raw plan-step dicts.  The validated plan guarantees each
step's `sources` is a non-empty list of known source names; the
sources restriction uses `step.get("entity_from_previous") is True` while
the next-step check uses plain truthiness. -/
def run_multihop_step_raw (env : OrchestratorEnv) (query : String)
    (raw : RawIntent) (plan : List (List (String × JVal)))
    (st : MultihopState) (idxStep : ℕ × List (String × JVal)) :
    Except Unit MultihopState := do
  let (stepIdx, step) := idxStep
  let stepSources :=
    match (step.lookup "sources").getD .jnull with
    | .jarr ss => ss.filterMap (fun v =>
        match v with
        | .jstr s => some s
        | _ => none)
    | _ => []
  let entityFromPrev :=
    ((step.lookup "entity_from_previous").getD .jnull).isTrue
  let extraTruthy :=
    match st.extraFilters with
    | some fs => !fs.isEmpty
    | none => false
  let sources :=
    if entityFromPrev ∧ extraTruthy = true then
      let extra := st.extraFilters.getD []
      let filterFields := (extra.filter (fun f => f.field ≠ "")).map (·.field)
      if filterFields.any (fun f => f = "from_name" ∨ f = "from_email") then
        let supporting :=
          pySetList (Registry.sourcesSupportingFilter env.reg "from_name"
            ++ Registry.sourcesSupportingFilter env.reg "from_email")
        if supporting ≠ [] then stepSources.filter (· ∈ supporting)
        else stepSources
      else stepSources
    else stepSources
  let decisions ←
    decisions_for_sources_raw env.dates env.reg raw sources query
      st.extraFilters
  if decisions = [] then .ok st
  else
    let out := execute_routing env decisions
    let st := { st with
      allResults := st.allResults ++ out.results
      allDecisions := st.allDecisions ++ decisions
      errors := st.errors ++ out.errors }
    let st :=
      if out.count.isSome ∧ st.countSource.isNone then
        { st with count := out.count, countSource := out.countSource }
      else st
    let st :=
      if !out.aggregates.isEmpty ∧ st.aggregatesSource.isNone then
        { st with aggregates := out.aggregates,
                  aggregatesSource := out.aggregatesSource }
      else st
    let extraFilters' :=
      match plan[stepIdx + 1]? with
      | some nextStep =>
          if ((nextStep.lookup "entity_from_previous").getD .jnull).truthy then
            if !out.aggregates.isEmpty then
              match out.aggregates with
              | [] => none
              | top :: _ =>
                  let name :=
                    match top.label with
                    | some l => if l ≠ "" then l else top.groupValue
                    | none => top.groupValue
                  if name ≠ "" then
                    some [⟨"from_name", "contains", name⟩]
                  else none
            else if !out.results.isEmpty then
              some (extract_entity_filters (env.entityLm stepIdx))
            else none
          else none
      | none => none
    .ok { st with extraFilters := extraFilters' }

/-- `UniversalSearchOrchestrator._run_multihop` (orchestrator.py 472-604). -/
def run_multihop_raw (env : OrchestratorEnv) (query : String)
    (raw : RawIntent) (plan : List (List (String × JVal))) :
    Except Unit MultihopState :=
  plan.enum.foldlM (run_multihop_step_raw env query raw plan) {}

/-- `UniversalSearchOrchestrator._cap_broad_decisions`
(orchestrator.py 120-155). -/
def cap_broad_decisions (reg : Registry) (decisions : List RoutingDecision) :
    List RoutingDecision :=
  if decisions = [] then []
  else
    let personal := reg.personalSources
    let rank : RoutingDecision → ℕ := fun d => if d.source ∈ personal then 0 else 1
    let ordered := stableSortBy
      (fun a b => rank a < rank b ∨ (rank a = rank b ∧ a.source < b.source))
      decisions
    (ordered.take (max 1 3)).map (fun d =>
      let preferred :=
        (if "structured" ∈ d.methods then ["structured"] else []) ++
        (if "fulltext" ∈ d.methods then ["fulltext"]
         else if "vector" ∈ d.methods then ["vector"] else [])
      let preferred := if preferred = [] then d.methods.take 2 else preferred
      { d with methods := if preferred = [] then ["vector"] else preferred })

/-- `UniversalSearchOrchestrator._is_personal_query`
(orchestrator.py 906-924). -/
def is_personal_query (reg : Registry) (decisions : List RoutingDecision) :
    Bool :=
  if decisions = [] then true
  else
    let sawWeb := decisions.any (fun d =>
      match reg.get d.source with
      | some caps => caps.sourceClass.value = "web"
      | none => false)
    let sawPersonal := decisions.any (fun d =>
      match reg.get d.source with
      | some caps => caps.sourceClass.value ≠ "web"
      | none => false)
    if sawPersonal then true else if sawWeb then false else true

/-- Output of the refinement loop (orchestrator.py 814-853).
`firedReasons` is a ghost observation recording the trigger reason of every
round that executed; the code keeps no such record and no per-reason
circuit-breaker state. -/
structure RefineLoopOut where
  results : List SearchResult
  errors : List String
  iterations : ℕ
  notes : List String
  firedReasons : List RefinementReason

/-- The refinement loop of `search` (orchestrator.py 814-853), iterating
`max_refinement_rounds` times with no per-reason state: the same trigger
can fire on every round.  This is the loop over a typed intent;
`refinement_loop_raw` below is the same loop consulting the raw intent
dict, which is what `search` runs. -/
def refinement_loop (env : OrchestratorEnv) (intent : Intent)
    (decisionsForRun : List RoutingDecision) :
    ℕ → List SearchResult → List String → ℕ → List String →
    List RefinementReason → RefineLoopOut
  | 0, res, errs, iter, notes, fired => ⟨res, errs, iter, notes, fired⟩
  | n + 1, res, errs, iter, notes, fired =>
      match should_refine res intent decisionsForRun with
      | (false, _) =>
          let notes' :=
            if res = [] ∧ decisionsForRun.any (fun d => !d.filters.isEmpty)
            then notes ++ ["No data found for the requested criteria."]
            else notes
          ⟨res, errs, iter, notes', fired⟩
      | (true, none) => ⟨res, errs, iter, notes, fired⟩
      | (true, some reason) =>
          let refined := refine env.reg reason res decisionsForRun
          if refined = [] then ⟨res, errs, iter + 1, notes, fired⟩
          else
            let out := execute_routing env refined
            refinement_loop env intent decisionsForRun n
              (res ++ out.results) (errs ++ out.errors) (iter + 1) notes
              (fired ++ [reason])

/-- The refinement loop over the raw intent dict: each round consults
`_should_refine`, whose single-source trigger can raise on an ill-typed
`source_hints` value. -/
def refinement_loop_raw (env : OrchestratorEnv) (raw : RawIntent)
    (decisionsForRun : List RoutingDecision) :
    ℕ → List SearchResult → List String → ℕ → List String →
    List RefinementReason → Except Unit RefineLoopOut
  | 0, res, errs, iter, notes, fired => .ok ⟨res, errs, iter, notes, fired⟩
  | n + 1, res, errs, iter, notes, fired =>
      match should_refine_raw res raw decisionsForRun with
      | .error e => .error e
      | .ok (false, _) =>
          let notes2 :=
            if res = [] ∧ decisionsForRun.any (fun d => !d.filters.isEmpty)
            then notes ++ ["No data found for the requested criteria."]
            else notes
          .ok ⟨res, errs, iter, notes2, fired⟩
      | .ok (true, none) => .ok ⟨res, errs, iter, notes, fired⟩
      | .ok (true, some reason) =>
          let refined := refine env.reg reason res decisionsForRun
          if refined = [] then .ok ⟨res, errs, iter + 1, notes, fired⟩
          else
            let out := execute_routing env refined
            refinement_loop_raw env raw decisionsForRun n
              (res ++ out.results) (errs ++ out.errors) (iter + 1) notes
              (fired ++ [reason])

/-- Opaque or structured values stored in the `meta` dict. -/
inductive MetaVal where
  | str (s : String)
  | num (n : ℤ)
  | optStr (s : Option String)
  | strList (l : List String)
  | matchList (l : List SourceMatch)
  | jval (j : JVal)
  | aggList (l : List AggregateGroup)
  | timing
  | intentTrace

/-- `RoutingComplexity` string value. -/
def RoutingComplexity.value : RoutingComplexity → String
  | .simple => "simple"
  | .complex => "complex"

/-- `UniversalSearchResponse`. -/
structure Response where
  results : List SearchResult := []
  errors : List String := []
  notes : List String := []
  meta : List (String × MetaVal) := []

/-- The `meta` dict assembled at the end of `search`
(orchestrator.py 878-897): these are all its keys, in construction order. -/
def assembleMeta (query : String) (sourcesQueried methodsUsed : List String)
    (iterations totalResults : ℤ) (complexity : RoutingComplexity)
    (sourceMatchTrace : List SourceMatch) (count : Option JVal)
    (countSource : Option String) (aggregates : List AggregateGroup)
    (aggregatesSource : Option String) : List (String × MetaVal) :=
  [("query", .str query),
   ("sources_queried", .strList sourcesQueried),
   ("methods_used", .strList methodsUsed),
   ("iterations", .num iterations),
   ("total_results", .num totalResults),
   ("complexity", .str complexity.value),
   ("intent_trace", .intentTrace),
   ("source_match_trace", .matchList sourceMatchTrace),
   ("timing_ms", .timing)] ++
  (match count with
   | some c => [("count", .jval c), ("count_source", .optStr countSource)]
   | none => []) ++
  (if aggregates.isEmpty then []
   else [("aggregates", .aggList aggregates),
         ("aggregates_source", .optStr aggregatesSource)])

/-- The meta dict of the multihop-no-decisions and no-backends early
returns (orchestrator.py 738-748 and 768-779). -/
def emptyPathMeta (query : String) (complexity : RoutingComplexity)
    (sourceMatchTrace : List SourceMatch) : List (String × MetaVal) :=
  [("query", .str query),
   ("sources_queried", .strList []),
   ("methods_used", .strList []),
   ("iterations", .num 0),
   ("total_results", .num 0),
   ("complexity", .str complexity.value),
   ("intent_trace", .intentTrace),
   ("source_match_trace", .matchList sourceMatchTrace),
   ("timing_ms", .timing)]

/-- Steps 6-8 of `search` (orchestrator.py 801-904): notes, personal-query
classification, count/aggregate refinement skip, refinement loop, fusion,
meta assembly.  The refinement loop reads the raw intent dict and can
raise. -/
def finish_search_raw (env : OrchestratorEnv) (raw : RawIntent)
    (query : String) (allResults : List SearchResult) (errors : List String)
    (decisionsForRun : List RoutingDecision)
    (complexityForMeta : RoutingComplexity)
    (sourceMatchTrace : List SourceMatch) (broadNote : Option String)
    (count : Option JVal) (countSource : Option String)
    (aggregates : List AggregateGroup) (aggregatesSource : Option String)
    (maxResults : ℤ) (doRefinement : Bool) (maxRefinementRounds : ℕ) :
    Except Unit Response := do
  let notes0 := match broadNote with
    | some n => [n]
    | none => []
  let isPersonal := is_personal_query env.reg decisionsForRun
  let firstMode :=
    match decisionsForRun with
    | [] => SearchMode.search
    | d :: _ => d.mode
  let skipRefinement := firstMode = .count ∨ firstMode = .aggregate
  let loopOut ←
    if doRefinement ∧ ¬skipRefinement then
      refinement_loop_raw env raw decisionsForRun maxRefinementRounds
        allResults errors 1 notes0 []
    else .ok ⟨allResults, errors, 1, notes0, []⟩
  let ranked := fuse_and_rank loopOut.results isPersonal maxResults
  let sourcesQueried := pySetList (decisionsForRun.map (·.source))
  let methodsUsed := pySetList (decisionsForRun.map (·.methods)).flatten
  .ok { results := ranked
        errors := loopOut.errors
        notes := loopOut.notes
        meta := assembleMeta query sourcesQueried methodsUsed loopOut.iterations
          ranked.length complexityForMeta sourceMatchTrace count countSource
          aggregates aggregatesSource }

/-- The intent step of `search` (orchestrator.py 674-686): use the
deterministic intent dict when the gate passes, otherwise call the
language model.  `_analyze_intent` wraps the LM call in `try/finally` with
no `except`, so a raised exception propagates (`.error`); output that
parses to a non-dict raises `AttributeError` at the first `intent.get`
(orchestrator.py 689), folded in here. -/
def intent_step (env : OrchestratorEnv)
    (deterministic : DeterministicResult) : Except Unit RawIntent :=
  if deterministic.shouldUseDeterministic then
    .ok (rawOfIntent deterministic.intent)
  else
    match env.lmIntent with
    | .error e => .error e
    | .ok (.jobj raw) => .ok raw
    | .ok _ => .error ()

/-- `search` after intent resolution (orchestrator.py 687-904): the
`len(intent.get("retrieval_plan") or [])` of the logging call, plan
validation, multihop or single-step routing, execution, refinement,
fusion and assembly.  Consumption of an ill-typed intent dict raises out
of `search` (`.error`). -/
def search_after_intent_raw (env : OrchestratorEnv) (query : String)
    (raw : RawIntent) (maxResults : ℤ) (doRefinement : Bool)
    (maxRefinementRounds : ℕ) : Except Unit Response := do
  let _ ← lenOrEmpty (rawGet raw "retrieval_plan")
  let validatedPlan :=
    validate_retrieval_plan_raw (rawGet raw "retrieval_plan")
      env.reg.allSources
  let intentComplexity := complexityOfRaw raw
  if intentComplexity = "multi_hop" ∧ validatedPlan.isSome then do
    let mh ← run_multihop_raw env query raw (validatedPlan.getD [])
    if mh.allDecisions = [] then
      .ok { results := []
            errors := if mh.errors ≠ [] then mh.errors
                      else ["Multi-hop produced no decisions."]
            meta := emptyPathMeta query .complex [] }
    else
      finish_search_raw env raw query mh.allResults mh.errors
        mh.allDecisions .complex [] none mh.count mh.countSource
        mh.aggregates mh.aggregatesSource maxResults doRefinement
        maxRefinementRounds
  else do
    let routingPlan ← route_raw ⟨env.matchSources⟩ env.dates env.reg raw query
    if routingPlan.decisions = [] then
      .ok { results := []
            errors := ["No search backends available for this query"]
            meta := emptyPathMeta query routingPlan.complexity
              routingPlan.sourceMatches }
    else
      let decisionsForRun :=
        if routingPlan.usedDefaultSources then
          cap_broad_decisions env.reg routingPlan.decisions
        else routingPlan.decisions
      let broadNote :=
        if routingPlan.usedDefaultSources then
          some "No explicit source hint detected; ran capped broad search."
        else none
      let out := execute_routing env decisionsForRun
      finish_search_raw env raw query out.results out.errors
        decisionsForRun routingPlan.complexity routingPlan.sourceMatches
        broadNote out.count out.countSource out.aggregates
        out.aggregatesSource maxResults doRefinement maxRefinementRounds

/-- `UniversalSearchOrchestrator.search` (orchestrator.py 605-904).  The
`.error` outcome is a thrown exception escaping `search`: the
language-model fallback call raising, its output parsing to a non-dict,
or an ill-typed field of the returned dict raising at a consumption
site. -/
def orchestrator_search (env : OrchestratorEnv)
    (conversationContext userMessage : String) (maxResults : ℤ)
    (doRefinement : Bool) (maxRefinementRounds : ℕ) : Except Unit Response :=
  let context :=
    if userMessage ≠ "" ∧ conversationContext ≠ "" then
      pyStrip (pyStrip userMessage ++ "\n\n" ++ pyStrip conversationContext)
    else pyStrip (if userMessage ≠ "" then userMessage else conversationContext)
  if context = "" then
    .ok { results := []
          errors := ["No context provided for search."]
          meta := [("query", .str ""), ("sources_queried", .strList []),
                   ("methods_used", .strList []), ("iterations", .num 0),
                   ("total_results", .num 0), ("complexity", .str "simple"),
                   ("intent_trace", .intentTrace), ("timing_ms", .timing)] }
  else
    let query :=
      if pyStrip userMessage ≠ "" then pyStrTake 200 (pyStrip userMessage)
      else default_query_from_context context
    let sourceMatches := env.matchSources query 0 (some 5)
    let fastIntent := env.fastPathIntent query
    let deterministic := analyze sourceMatches (env.temporalSig query)
      (env.entitySig query) (env.queryTypeSig query)
      (fastIntent.bind (·.retrievalPlan))
    match intent_step env deterministic with
    | .error e => .error e
    | .ok raw =>
        search_after_intent_raw env query raw maxResults doRefinement
          maxRefinementRounds

/-! ## Universal search tool (src/tools/universal_search.py) -/

/-- The `max_results` clamp of `UniversalSearchTool.execute`
(universal_search.py 139-147): `none` models a missing, blank or
unparseable argument string (`int` raising `ValueError`), any parsed
integer is clamped with `min(50, max(1, n))`. -/
def toolMaxResults (parsedArg : Option ℤ) : ℤ :=
  match parsedArg with
  | none => 20
  | some n => min 50 (max 1 n)

/-- `ToolResult`: `ok` carries the response (formatting is not modelled),
`fail` an error message. -/
inductive ToolOutcome where
  | ok (r : Response)
  | fail (message : String)

/-- `UniversalSearchTool.execute` (universal_search.py 126-165): context
check, clamp, orchestrator call with every thrown exception converted to a
failed tool result. -/
def tool_execute (env : OrchestratorEnv)
    (conversationContext userMessage : String) (parsedMaxResults : Option ℤ)
    (maxRefinementRounds : ℕ) : ToolOutcome :=
  let context :=
    pyStrip (if conversationContext ≠ "" then conversationContext
             else userMessage)
  if context = "" then
    .fail "Universal search requires context (injected by the system)."
  else
    match orchestrator_search env (pyStrip conversationContext)
        (pyStrip userMessage) (toolMaxResults parsedMaxResults) true
        maxRefinementRounds with
    | .ok r => .ok r
    | .error _ => .fail "Universal search failed: <exception>"

/-! ## Deduplication group semantics (claim C9 vocabulary) -/

/-- The (source, id) pair of a result. -/
def resKey (r : SearchResult) : String × String := (r.source, r.id)

/-- Max of two optional scores (absent values ignored). -/
def optMax : Option ℚ → Option ℚ → Option ℚ
  | none, b => b
  | some a, none => some a
  | some a, some b => some (max a b)

/-- The per-method maximum of `m`-scores across the duplicate group of
dedup key `k` (`none` when no duplicate carries method `m`). -/
def groupMaxScore (results : List SearchResult) (k m : String) : Option ℚ :=
  ((results.filter (fun r => decide (dedupKey r = k))).map
    (fun r => r.scores.lookup m)).foldl optMax none

/-- Invariant of the `deduplicate_results` fold: the `seen` dict agrees
with the processed prefix — absent keys have no matching duplicate, and
each present entry keeps the identity of its first duplicate, the
per-method score maximum, and the union of the duplicates' method lists. -/
def dedupSeenOk (processed : List SearchResult)
    (seen : List (String × SearchResult)) : Prop :=
  ∀ k : String,
    match seen.lookup k with
    | none => processed.filter (fun r => decide (dedupKey r = k)) = []
    | some o =>
        (∃ r' ∈ processed, r'.source = o.source ∧ r'.id = o.id) ∧
        (∀ m, o.scores.lookup m = groupMaxScore processed k m) ∧
        (∀ mu, mu ∈ o.methodsUsed ↔
          ∃ r ∈ processed, dedupKey r = k ∧ mu ∈ r.methodsUsed)

/-! ## Auxiliary definitions used by the theorems -/

/-- A minimal orchestrator environment: nothing registered, every call
fails, the language model returns the recovery-default intent. -/
def trivialEnv : OrchestratorEnv :=
  { reg := []
    dispatcher := {}
    mcpCallFn := fun _ _ => .error ()
    directBackends := []
    parseJson := fun _ => none
    matchSources := fun _ _ _ => []
    fastPathIntent := fun _ => none
    temporalSig := fun _ => {}
    entitySig := fun _ => {}
    queryTypeSig := fun _ => {}
    lmIntent := .ok (.jobj defaultLMIntent)
    entityLm := fun _ => .ok []
    dates := ⟨fun _ => ""⟩ }

/-- Invariant (I1): every filter of the decision is declared by the
capability registered for the decision's source. -/
def DecisionFiltersDeclared (reg : Registry) (d : RoutingDecision) : Prop :=
  ∀ f ∈ d.filters, ∃ caps, reg.get d.source = some caps ∧
    f.field ∈ caps.supportedFilters.map (·.name)

/-- The raw `results` array of a unified_search payload as iterated by
`_parse_response` (after `output` unwrapping): the upper bound on how many
results one call can contribute. -/
def payloadRawResults (pj : String → Option JVal)
    (result : List (String × JVal)) : List JVal :=
  let dataOpt : Option (List (String × JVal)) :=
    match result.lookup "output" with
    | some (.jstr s) =>
        match pj s with
        | some (.jobj fs) => some fs
        | _ => none
    | some (.jobj fs) => some fs
    | _ => some result
  match dataOpt with
  | none => []
  | some data =>
      match (data.lookup "results").getD (.jarr []) with
      | .jarr xs => xs
      | _ => []

/-- An environment with one MCP-registered source whose call function
returns a fixed two-result payload. -/
def c10Env : OrchestratorEnv :=
  { trivialEnv with
    dispatcher := { mcpCallers := [("email", 0)]
                    connectionSources := [("email", "c")] }
    mcpCallFn := fun _ _ => .ok
      [("results", .jarr [.jobj [("id", .jstr "1")],
                          .jobj [("id", .jstr "2")]])] }

/-! ## Lemmas: stable descending sort -/

theorem mem_insertScoreDesc {x a : ℚ × SearchResult}
    {l : List (ℚ × SearchResult)} :
    a ∈ insertScoreDesc x l ↔ a = x ∨ a ∈ l := by
  induction l with
  | nil => simp [insertScoreDesc]
  | cons y ys ih =>
      by_cases h : y.1 > x.1
      · simp only [insertScoreDesc, if_pos h, List.mem_cons, ih]
        try tauto
      · simp only [insertScoreDesc, if_neg h, List.mem_cons]
        try tauto

theorem insertScoreDesc_perm (x : ℚ × SearchResult)
    (l : List (ℚ × SearchResult)) :
    (insertScoreDesc x l).Perm (x :: l) := by
  induction l with
  | nil => simp [insertScoreDesc]
  | cons y ys ih =>
      by_cases h : y.1 > x.1
      · simp only [insertScoreDesc, if_pos h]
        exact (ih.cons y).trans (List.Perm.swap x y ys)
      · simp [insertScoreDesc, if_neg h]

theorem sortScoreDesc_perm (l : List (ℚ × SearchResult)) :
    (sortScoreDesc l).Perm l := by
  induction l with
  | nil => simp [sortScoreDesc]
  | cons x xs ih =>
      have : sortScoreDesc (x :: xs) = insertScoreDesc x (sortScoreDesc xs) := rfl
      rw [this]
      exact (insertScoreDesc_perm x (sortScoreDesc xs)).trans (ih.cons x)

theorem pairwise_insertScoreDesc {x : ℚ × SearchResult}
    {l : List (ℚ × SearchResult)}
    (h : l.Pairwise (fun a b => a.1 ≥ b.1)) :
    (insertScoreDesc x l).Pairwise (fun a b => a.1 ≥ b.1) := by
  induction l with
  | nil => simp [insertScoreDesc]
  | cons y ys ih =>
      rcases List.pairwise_cons.mp h with ⟨hy, hys⟩
      by_cases hgt : y.1 > x.1
      · simp only [insertScoreDesc, if_pos hgt]
        refine List.pairwise_cons.mpr ⟨?_, ih hys⟩
        intro a ha
        rcases mem_insertScoreDesc.mp ha with rfl | ha
        · exact le_of_lt hgt
        · exact hy a ha
      · simp only [insertScoreDesc, if_neg hgt]
        push_neg at hgt
        refine List.pairwise_cons.mpr ⟨?_, h⟩
        intro a ha
        rcases List.mem_cons.mp ha with rfl | ha
        · exact hgt
        · exact le_trans (hy a ha) hgt

theorem pairwise_sortScoreDesc (l : List (ℚ × SearchResult)) :
    (sortScoreDesc l).Pairwise (fun a b => a.1 ≥ b.1) := by
  induction l with
  | nil => simp [sortScoreDesc]
  | cons x xs ih => exact pairwise_insertScoreDesc ih

theorem filter_insertScoreDesc (x : ℚ × SearchResult)
    (l : List (ℚ × SearchResult)) (s : ℚ) :
    (insertScoreDesc x l).filter (fun p => decide (p.1 = s)) =
      if x.1 = s then x :: l.filter (fun p => decide (p.1 = s))
      else l.filter (fun p => decide (p.1 = s)) := by
  induction l with
  | nil =>
      by_cases h : x.1 = s <;> simp [insertScoreDesc, h]
  | cons y ys ih =>
      by_cases hgt : y.1 > x.1
      · have hxy : ¬ (x.1 = s ∧ y.1 = s) := by
          rintro ⟨hx, hy⟩
          rw [hx] at hgt
          rw [hy] at hgt
          exact lt_irrefl s hgt
        simp only [insertScoreDesc, if_pos hgt, List.filter_cons]
        by_cases hy : y.1 = s
        · have hx : ¬ x.1 = s := fun hx => hxy ⟨hx, hy⟩
          simp [hy, hx, ih]
        · simp [hy, ih]
      · simp only [insertScoreDesc, if_neg hgt, List.filter_cons]
        by_cases hx : x.1 = s <;> simp [hx]

theorem filter_sortScoreDesc (l : List (ℚ × SearchResult)) (s : ℚ) :
    (sortScoreDesc l).filter (fun p => decide (p.1 = s)) =
      l.filter (fun p => decide (p.1 = s)) := by
  induction l with
  | nil => simp [sortScoreDesc]
  | cons x xs ih =>
      have h1 : sortScoreDesc (x :: xs) = insertScoreDesc x (sortScoreDesc xs) := rfl
      rw [h1, filter_insertScoreDesc, List.filter_cons]
      by_cases hx : x.1 = s <;> simp [hx, ih]

theorem take_filter_append {α : Type} (p : α → Bool) :
    ∀ (n : ℕ) (l : List α), ∃ t, (l.take n).filter p ++ t = l.filter p := by
  intro n l
  induction l generalizing n with
  | nil => exact ⟨[], by simp⟩
  | cons a l ih =>
      match n with
      | 0 => exact ⟨(a :: l).filter p, by simp⟩
      | n + 1 =>
          obtain ⟨t, ht⟩ := ih n
          refine ⟨t, ?_⟩
          by_cases h : p a <;> simp [List.filter_cons, h, ht]

theorem pyTake_eq_take {α : Type} (n : ℤ) (l : List α) :
    ∃ k : ℕ, pyTake n l = l.take k := by
  unfold pyTake
  by_cases h : 0 ≤ n
  · exact ⟨n.toNat, by simp [h]⟩
  · exact ⟨((l.length : ℤ) + n).toNat, by simp [h]⟩

/-- Claim C1 (amended): the fusion output is sorted by fused score
descending, but equal-score results keep their deduplication
(first-arrival) order rather than being ordered by (source, id): for every
score s, the tied block of the output is a prefix of the tied block of the
deduplicated input. -/
theorem C1_fuse_and_rank_sorted_ties_in_arrival_order
    (results : List SearchResult) (isPersonal : Bool) (maxResults : ℤ) :
    ((fuse_and_rank results isPersonal maxResults).Pairwise
      (fun a b => compute_fused_score a isPersonal ≥
        compute_fused_score b isPersonal)) ∧
    (∀ s : ℚ, ∃ t,
      ((fuse_and_rank results isPersonal maxResults).filter
        (fun r => decide (compute_fused_score r isPersonal = s))) ++ t =
      ((deduplicate_results results).filter
        (fun r => decide (compute_fused_score r isPersonal = s)))) := by
  by_cases hres : results = []
  · subst hres
    constructor
    · simp [fuse_and_rank]
    · intro s
      exact ⟨[], by simp [fuse_and_rank, deduplicate_results]⟩
  · have hfr : fuse_and_rank results isPersonal maxResults =
        (pyTake maxResults (sortScoreDesc ((deduplicate_results results).map
          (fun r => (compute_fused_score r isPersonal, r))))).map Prod.snd := by
      simp [fuse_and_rank, hres]
    obtain ⟨k, hk⟩ := pyTake_eq_take maxResults
      (sortScoreDesc ((deduplicate_results results).map
        (fun r => (compute_fused_score r isPersonal, r))))
    have hinv : ∀ p ∈ sortScoreDesc ((deduplicate_results results).map
        (fun r => (compute_fused_score r isPersonal, r))),
        p.1 = compute_fused_score p.2 isPersonal := by
      intro p hp
      have hmem := (sortScoreDesc_perm _).mem_iff.mp hp
      obtain ⟨r, _, rfl⟩ := List.mem_map.mp hmem
      rfl
    constructor
    · rw [hfr, hk, List.pairwise_map]
      have h1 := (pairwise_sortScoreDesc ((deduplicate_results results).map
        (fun r => (compute_fused_score r isPersonal, r)))).sublist
        (List.take_sublist k _)
      refine h1.imp_of_mem ?_
      intro a b ha hb hab
      rw [← hinv a (List.take_subset k _ ha), ← hinv b (List.take_subset k _ hb)]
      exact hab
    · intro s
      rw [hfr, hk]
      rw [List.filter_map]
      have e2 : ((sortScoreDesc ((deduplicate_results results).map
            (fun r => (compute_fused_score r isPersonal, r)))).take k).filter
            ((fun r => decide (compute_fused_score r isPersonal = s)) ∘ Prod.snd) =
          ((sortScoreDesc ((deduplicate_results results).map
            (fun r => (compute_fused_score r isPersonal, r)))).take k).filter
            (fun p => decide (p.1 = s)) := by
        apply List.filter_congr
        intro p hp
        have h := hinv p (List.take_subset k _ hp)
        simp only [Function.comp]
        rw [h]
      rw [e2]
      obtain ⟨t, ht⟩ := take_filter_append (fun p => decide (p.1 = s)) k
        (sortScoreDesc ((deduplicate_results results).map
          (fun r => (compute_fused_score r isPersonal, r))))
      refine ⟨t.map Prod.snd, ?_⟩
      rw [← List.map_append, ht, filter_sortScoreDesc, List.filter_map,
        List.map_map]
      have : (Prod.snd ∘ fun r => (compute_fused_score r isPersonal, r)) =
          id := rfl
      rw [this, List.map_id]
      apply List.filter_congr
      intro r _
      rfl

/-- Claim C1, counterexample: the scored list is sorted only by negated
score (a stable sort), so two results with equal fused scores stay in
arrival order — source "b" before source "a" — and swapping the arrival
order swaps the output: the tie is not broken by (source name, id) and the
final ordering is not independent of input arrival order. -/
theorem C1_counterexample :
    (compute_fused_score
        { id := "1", source := "a", scores := [("structured", 1/2)],
          methodsUsed := ["structured"] } true =
      compute_fused_score
        { id := "1", source := "b", scores := [("structured", 1/2)],
          methodsUsed := ["structured"] } true) ∧
    fuse_and_rank
      [{ id := "1", source := "b", scores := [("structured", 1/2)],
         methodsUsed := ["structured"] },
       { id := "1", source := "a", scores := [("structured", 1/2)],
         methodsUsed := ["structured"] }] true 20 =
      [{ id := "1", source := "b", scores := [("structured", 1/2)],
         methodsUsed := ["structured"] },
       { id := "1", source := "a", scores := [("structured", 1/2)],
         methodsUsed := ["structured"] }] ∧
    fuse_and_rank
      [{ id := "1", source := "a", scores := [("structured", 1/2)],
         methodsUsed := ["structured"] },
       { id := "1", source := "b", scores := [("structured", 1/2)],
         methodsUsed := ["structured"] }] true 20 =
      [{ id := "1", source := "a", scores := [("structured", 1/2)],
         methodsUsed := ["structured"] },
       { id := "1", source := "b", scores := [("structured", 1/2)],
         methodsUsed := ["structured"] }] := by
  refine ⟨?_, ?_, ?_⟩ <;>
    simp [fuse_and_rank, deduplicate_results, dedupStep, dedupKey,
      List.lookup, compute_fused_score, methodWeight, sourceClassBoost,
      SourceClass.value, sortScoreDesc, insertScoreDesc, pyTake]

/-! ## Lemmas: association lists and the dedup fold -/

theorem lookup_cons {α : Type} (k : String) (p : String × α)
    (t : List (String × α)) :
    (p :: t).lookup k = if k = p.1 then some p.2 else t.lookup k := by
  rcases p with ⟨a, b⟩
  by_cases h : k = a
  · simp [List.lookup, h]
  · have hb : (k == a) = false := beq_eq_false_iff_ne.mpr h
    simp [List.lookup, hb, h]

theorem lookup_append {α : Type} (l₁ l₂ : List (String × α)) (k : String) :
    (l₁ ++ l₂).lookup k =
      match l₁.lookup k with
      | some v => some v
      | none => l₂.lookup k := by
  induction l₁ with
  | nil => simp [List.lookup]
  | cons p t ih =>
      rw [List.cons_append, lookup_cons, lookup_cons]
      by_cases h : k = p.1
      · simp [h]
      · simp only [if_neg h]
        exact ih

theorem lookup_none_iff {α : Type} (l : List (String × α)) (k : String) :
    l.lookup k = none ↔ ∀ p ∈ l, p.1 ≠ k := by
  induction l with
  | nil => simp [List.lookup]
  | cons p t ih =>
      rw [lookup_cons]
      by_cases h : k = p.1
      · simp only [if_pos h]
        constructor
        · intro hc
          exact absurd hc (by simp)
        · intro hall
          exact absurd h.symm (hall p (List.mem_cons_self p t))
      · simp only [if_neg h, ih]
        constructor
        · intro hall q hq
          rcases List.mem_cons.mp hq with rfl | hq
          · exact fun hc => h hc.symm
          · exact hall q hq
        · intro hall q hq
          exact hall q (List.mem_cons_of_mem p hq)

theorem mem_of_lookup_eq_some {α : Type} {l : List (String × α)} {k : String}
    {v : α} (h : l.lookup k = some v) : (k, v) ∈ l := by
  induction l with
  | nil => simp [List.lookup] at h
  | cons p t ih =>
      rw [lookup_cons] at h
      by_cases hk : k = p.1
      · rw [if_pos hk] at h
        have : (k, v) = p := by
          rcases p with ⟨a, b⟩
          simp only [Option.some.injEq] at h
          simp only at hk
          rw [hk, h.symm]
      
        exact this ▸ List.mem_cons_self p t
      · rw [if_neg hk] at h
        exact List.mem_cons_of_mem p (ih h)

theorem lookup_assocSet_self {α : Type} (l : List (String × α)) (k : String)
    (v : α) :
    (assocSet l k v).lookup k = if (l.lookup k).isSome then some v else none := by
  induction l with
  | nil => simp [assocSet, List.lookup]
  | cons p t ih =>
      by_cases h : p.1 = k
      · simp only [assocSet, List.map_cons, if_pos h]
        rw [lookup_cons, lookup_cons]
        simp [h]
      · simp only [assocSet, List.map_cons, if_neg h]
        rw [lookup_cons, lookup_cons]
        have hne : ¬ k = p.1 := fun hc => h hc.symm
        rw [if_neg hne, if_neg hne]
        exact ih

theorem lookup_assocSet_ne {α : Type} (l : List (String × α)) (k m : String)
    (v : α) (h : m ≠ k) : (assocSet l k v).lookup m = l.lookup m := by
  induction l with
  | nil => simp [assocSet]
  | cons p t ih =>
      by_cases hp : p.1 = k
      · simp only [assocSet, List.map_cons, if_pos hp]
        rw [lookup_cons, lookup_cons]
        have hm1 : ¬ m = k := h
        have hm2 : ¬ m = p.1 := fun hc => h (hc.trans hp)
        rw [if_neg hm1, if_neg hm2]
        exact ih
      · simp only [assocSet, List.map_cons, if_neg hp]
        rw [lookup_cons, lookup_cons]
        by_cases hm : m = p.1
        · simp [hm]
        · rw [if_neg hm, if_neg hm]
          exact ih

theorem assocSet_keys {α : Type} (l : List (String × α)) (k : String) (v : α) :
    (assocSet l k v).map Prod.fst = l.map Prod.fst := by
  induction l with
  | nil => simp [assocSet]
  | cons p t ih =>
      by_cases hp : p.1 = k
      · simp only [assocSet, List.map_cons, if_pos hp]
        simp only [assocSet] at ih
        rw [ih]
        simp [hp]
      · simp only [assocSet, List.map_cons, if_neg hp]
        simp only [assocSet] at ih
        rw [ih]

theorem mem_assocSet {α : Type} {l : List (String × α)} {k : String} {v : α}
    {p : String × α} (h : p ∈ assocSet l k v) :
    p = (k, v) ∨ (p ∈ l ∧ p.1 ≠ k) := by
  obtain ⟨q, hq, hqe⟩ := List.mem_map.mp h
  by_cases hk : q.1 = k
  · left
    rw [if_pos hk] at hqe
    exact hqe.symm
  · right
    rw [if_neg hk] at hqe
    exact ⟨hqe ▸ hq, hqe ▸ hk⟩

theorem lookup_eq_of_mem_of_nodup {α : Type} {l : List (String × α)}
    (hn : (l.map Prod.fst).Nodup) {p : String × α} (hp : p ∈ l) :
    l.lookup p.1 = some p.2 := by
  induction l with
  | nil => simp at hp
  | cons q t ih =>
      simp only [List.map_cons, List.nodup_cons] at hn
      rw [lookup_cons]
      rcases List.mem_cons.mp hp with rfl | hp
      · simp
      · have hne : p.1 ≠ q.1 := by
          intro hc
          exact hn.1 (hc ▸ List.mem_map_of_mem Prod.fst hp)
        rw [if_neg hne]
        exact ih hn.2 hp

theorem optMax_none_left (x : Option ℚ) : optMax none x = x := by
  cases x <;> rfl

theorem mem_pySetList_aux (xs : List String) :
    ∀ (acc : List String) (x : String),
      x ∈ xs.foldl (fun acc x => if x ∈ acc then acc else acc ++ [x]) acc ↔
        x ∈ acc ∨ x ∈ xs := by
  induction xs with
  | nil => simp
  | cons a t ih =>
      intro acc x
      simp only [List.foldl_cons]
      by_cases ha : a ∈ acc
      · rw [if_pos ha, ih]
        constructor
        · rintro (h | h)
          · exact Or.inl h
          · exact Or.inr (List.mem_cons_of_mem a h)
        · rintro (h | h)
          · exact Or.inl h
          · rcases List.mem_cons.mp h with rfl | h
            · exact Or.inl ha
            · exact Or.inr h
      · rw [if_neg ha, ih]
        simp only [List.mem_append, List.mem_singleton, List.mem_cons]
        tauto

theorem mem_pySetList {xs : List String} {x : String} :
    x ∈ pySetList xs ↔ x ∈ xs := by
  rw [pySetList, mem_pySetList_aux]
  simp

theorem mergeScores_lookup (e inc : List (String × ℚ))
    (hn : (inc.map Prod.fst).Nodup) (m : String) :
    (mergeScores e inc).lookup m = optMax (e.lookup m) (inc.lookup m) := by
  induction inc generalizing e m with
  | nil =>
      simp only [mergeScores, List.foldl_nil, List.lookup]
      cases e.lookup m <;> rfl
  | cons kv rest ih =>
      simp only [List.map_cons, List.nodup_cons] at hn
      have hstep : mergeScores e (kv :: rest) =
          mergeScores (match e.lookup kv.1 with
            | none => e ++ [kv]
            | some old => if kv.2 > old then assocSet e kv.1 kv.2 else e)
            rest := by
        simp only [mergeScores, List.foldl_cons]
      rw [hstep, ih _ hn.2, lookup_cons]
      by_cases hm : m = kv.1
      · subst hm
        rw [if_pos rfl]
        have hrest : rest.lookup kv.1 = none := by
          rw [lookup_none_iff]
          intro p hp hc
          exact hn.1 (hc ▸ List.mem_map_of_mem Prod.fst hp)
        rw [hrest]
        cases he : e.lookup kv.1 with
        | none =>
            simp only [he]
            have h1 : (e ++ [kv]).lookup kv.1 = some kv.2 := by
              rw [lookup_append, he, lookup_cons, if_pos rfl]
            rw [h1]
            rfl
        | some old =>
            simp only [he]
            by_cases hgt : kv.2 > old
            · rw [if_pos hgt, lookup_assocSet_self, he]
              simp only [Option.isSome_some, if_true]
              simp [optMax, max_eq_right (le_of_lt hgt)]
            · rw [if_neg hgt, he]
              simp [optMax, max_eq_left (le_of_not_lt hgt)]
      · rw [if_neg hm]
        have hX : (match e.lookup kv.1 with
            | none => e ++ [kv]
            | some old => if kv.2 > old then assocSet e kv.1 kv.2 else e).lookup m
            = e.lookup m := by
          cases he : e.lookup kv.1 with
          | none =>
              dsimp only
              rw [lookup_append]
              cases hem : e.lookup m with
              | none => rw [lookup_cons, if_neg hm]; rfl
              | some v => rfl
          | some old =>
              dsimp only
              by_cases hgt : kv.2 > old
              · rw [if_pos hgt, lookup_assocSet_ne _ _ _ _ hm]
              · rw [if_neg hgt]
        rw [hX]

theorem filter_append_single (processed : List SearchResult)
    (r : SearchResult) (k : String) :
    (processed ++ [r]).filter (fun x => decide (dedupKey x = k)) =
      processed.filter (fun x => decide (dedupKey x = k)) ++
      (if dedupKey r = k then [r] else []) := by
  rw [List.filter_append]
  congr 1
  by_cases hk : dedupKey r = k <;> simp [hk]

theorem dedupSeenOk_step (processed : List SearchResult)
    (seen : List (String × SearchResult)) (r : SearchResult)
    (hr : (r.scores.map Prod.fst).Nodup)
    (h : dedupSeenOk processed seen) :
    dedupSeenOk (processed ++ [r]) (dedupStep seen r) := by
  cases hl : seen.lookup (dedupKey r) with
  | none =>
      have hstep : dedupStep seen r = seen ++ [(dedupKey r, r)] := by
        simp only [dedupStep, hl]
      rw [hstep]
      intro k
      rw [lookup_append]
      cases hsk : seen.lookup k with
      | some o =>
          have hkr : k ≠ dedupKey r := by
            intro hc
            rw [hc, hl] at hsk
            exact Option.noConfusion hsk
          dsimp only
          have h0 := h k
          rw [hsk] at h0
          have hfil : (processed ++ [r]).filter (fun x => decide (dedupKey x = k)) =
              processed.filter (fun x => decide (dedupKey x = k)) := by
            rw [filter_append_single, if_neg (fun hc => hkr hc.symm),
              List.append_nil]
          refine ⟨?_, ?_, ?_⟩
          · obtain ⟨r', hr', he⟩ := h0.1
            exact ⟨r', List.mem_append_left _ hr', he⟩
          · intro m
            rw [h0.2.1 m]
            simp only [groupMaxScore, hfil]
          · intro mu
            rw [h0.2.2 mu]
            constructor
            · rintro ⟨r', hr', hkey, hmu⟩
              exact ⟨r', List.mem_append_left _ hr', hkey, hmu⟩
            · rintro ⟨r', hr', hkey, hmu⟩
              rcases List.mem_append.mp hr' with hr' | hr'
              · exact ⟨r', hr', hkey, hmu⟩
              · rcases List.mem_singleton.mp hr' with rfl
                exact absurd hkey (fun hc => hkr hc.symm)
      | none =>
          dsimp only
          rw [lookup_cons]
          have h0 := h k
          rw [hsk] at h0
          by_cases hk : k = dedupKey r
          · rw [if_pos hk]
            subst hk
            refine ⟨⟨r, List.mem_append_right _ (List.mem_singleton_self r),
              rfl, rfl⟩, ?_, ?_⟩
            · intro m
              simp only [groupMaxScore, filter_append_single, h0,
                List.nil_append]
              simp [optMax_none_left]
            · intro mu
              constructor
              · intro hmu
                exact ⟨r, List.mem_append_right _ (List.mem_singleton_self r),
                  rfl, hmu⟩
              · rintro ⟨r', hr', hkey, hmu⟩
                rcases List.mem_append.mp hr' with hr' | hr'
                · exact absurd hkey
                    ((List.filter_eq_nil_iff.mp h0 r' hr') ∘ decide_eq_true)
                · rcases List.mem_singleton.mp hr' with rfl
                  exact hmu
          · rw [if_neg hk]
            dsimp only [List.lookup]
            rw [filter_append_single, if_neg (fun hc => hk hc.symm),
              List.append_nil]
            exact h0
  | some existing =>
      have hstep : dedupStep seen r = assocSet seen (dedupKey r)
          { existing with
            scores := mergeScores existing.scores r.scores
            methodsUsed := pySetList (existing.methodsUsed ++ r.methodsUsed) } := by
        simp only [dedupStep, hl]
      rw [hstep]
      intro k
      have h0 := h (dedupKey r)
      rw [hl] at h0
      by_cases hk : k = dedupKey r
      · subst hk
        rw [lookup_assocSet_self, hl]
        simp only [Option.isSome_some, if_true]
        refine ⟨?_, ?_, ?_⟩
        · obtain ⟨r', hr', he⟩ := h0.1
          exact ⟨r', List.mem_append_left _ hr', he⟩
        · intro m
          show (mergeScores existing.scores r.scores).lookup m = _
          rw [mergeScores_lookup _ _ hr m, h0.2.1 m]
          simp only [groupMaxScore, filter_append_single, List.map_append,
            List.foldl_append]
          simp
        · intro mu
          show mu ∈ pySetList (existing.methodsUsed ++ r.methodsUsed) ↔ _
          rw [mem_pySetList, List.mem_append, h0.2.2 mu]
          constructor
          · rintro (⟨r', hr', hkey, hmu⟩ | hmu)
            · exact ⟨r', List.mem_append_left _ hr', hkey, hmu⟩
            · exact ⟨r, List.mem_append_right _ (List.mem_singleton_self r),
                rfl, hmu⟩
          · rintro ⟨r', hr', hkey, hmu⟩
            rcases List.mem_append.mp hr' with hr' | hr'
            · exact Or.inl ⟨r', hr', hkey, hmu⟩
            · rcases List.mem_singleton.mp hr' with rfl
              exact Or.inr hmu
      · rw [lookup_assocSet_ne _ _ _ _ hk]
        have hfil : (processed ++ [r]).filter (fun x => decide (dedupKey x = k)) =
            processed.filter (fun x => decide (dedupKey x = k)) := by
          rw [filter_append_single, if_neg (fun hc => hk hc.symm),
            List.append_nil]
        cases hsk : seen.lookup k with
        | none =>
            have h1 := h k
            rw [hsk] at h1
            dsimp only
            rw [hfil]
            exact h1
        | some o =>
            have h1 := h k
            rw [hsk] at h1
            dsimp only
            refine ⟨?_, ?_, ?_⟩
            · obtain ⟨r', hr', he⟩ := h1.1
              exact ⟨r', List.mem_append_left _ hr', he⟩
            · intro m
              rw [h1.2.1 m]
              simp only [groupMaxScore, hfil]
            · intro mu
              rw [h1.2.2 mu]
              constructor
              · rintro ⟨r', hr', hkey, hmu⟩
                exact ⟨r', List.mem_append_left _ hr', hkey, hmu⟩
              · rintro ⟨r', hr', hkey, hmu⟩
                rcases List.mem_append.mp hr' with hr' | hr'
                · exact ⟨r', hr', hkey, hmu⟩
                · rcases List.mem_singleton.mp hr' with rfl
                  exact absurd hkey (fun hc => hk hc.symm)

theorem dedupSeenOk_fold (results : List SearchResult) :
    ∀ (processed : List SearchResult) (seen : List (String × SearchResult)),
      (∀ r ∈ results, (r.scores.map Prod.fst).Nodup) →
      dedupSeenOk processed seen →
      dedupSeenOk (processed ++ results) (results.foldl dedupStep seen) := by
  induction results with
  | nil =>
      intro processed seen _ h
      simpa using h
  | cons r rest ih =>
      intro processed seen hsc h
      have h1 := dedupSeenOk_step processed seen r
        (hsc r (List.mem_cons_self r rest)) h
      have h2 := ih (processed ++ [r]) (dedupStep seen r)
        (fun x hx => hsc x (List.mem_cons_of_mem r hx)) h1
      simpa [List.append_assoc] using h2

theorem dedup_keys_fold (results : List SearchResult) :
    ∀ (seen : List (String × SearchResult)),
      ((seen.map Prod.fst).Nodup ∧ ∀ p ∈ seen, p.1 = dedupKey p.2) →
      (((results.foldl dedupStep seen).map Prod.fst).Nodup ∧
        ∀ p ∈ results.foldl dedupStep seen, p.1 = dedupKey p.2) := by
  induction results with
  | nil => intro seen h; exact h
  | cons r rest ih =>
      rintro seen ⟨hn, hm⟩
      apply ih
      cases hl : seen.lookup (dedupKey r) with
      | none =>
          have hstep : dedupStep seen r = seen ++ [(dedupKey r, r)] := by
            simp only [dedupStep, hl]
          rw [hstep]
          constructor
          · rw [List.map_append]
            rw [List.nodup_append]
            refine ⟨hn, by simp, ?_⟩
            intro a ha hb
            simp only [List.map_cons, List.map_nil, List.mem_singleton] at hb
            subst hb
            obtain ⟨p, hp, hpe⟩ := List.mem_map.mp ha
            exact (lookup_none_iff seen (dedupKey r)).mp hl p hp hpe
          · intro p hp
            rcases List.mem_append.mp hp with hp | hp
            · exact hm p hp
            · rcases List.mem_singleton.mp hp with rfl
              rfl
      | some existing =>
          have hstep : dedupStep seen r = assocSet seen (dedupKey r)
              { existing with
                scores := mergeScores existing.scores r.scores
                methodsUsed := pySetList (existing.methodsUsed ++ r.methodsUsed) } := by
            simp only [dedupStep, hl]
          rw [hstep]
          constructor
          · rw [assocSet_keys]
            exact hn
          · intro p hp
            rcases mem_assocSet hp with rfl | ⟨hp, _⟩
            · have hex : dedupKey r = dedupKey existing :=
                hm _ (mem_of_lookup_eq_some hl)
              exact hex
            · exact hm p hp

theorem string_data_inj {s t : String} (h : s.data = t.data) : s = t := by
  cases s
  cases t
  exact congrArg String.mk h

theorem append_colon_inj {a : List Char} :
    ∀ {c : List Char}, ':' ∉ a → ':' ∉ c →
    ∀ {b d : List Char}, a ++ ':' :: b = c ++ ':' :: d → a = c ∧ b = d := by
  induction a with
  | nil =>
      intro c ha hc b d h
      cases c with
      | nil => simpa using h
      | cons y ys =>
          simp only [List.nil_append, List.cons_append, List.cons.injEq] at h
          exact absurd (h.1 ▸ List.mem_cons_self y ys) (h.1 ▸ hc)
  | cons x xs ih =>
      intro c ha hc b d h
      cases c with
      | nil =>
          simp only [List.cons_append, List.nil_append, List.cons.injEq] at h
          exact absurd (h.1 ▸ List.mem_cons_self x xs) (fun hx => ha (h.1 ▸ hx))
      | cons y ys =>
          simp only [List.cons_append, List.cons.injEq] at h
          obtain ⟨rfl, htail⟩ := h
          have ha' : ':' ∉ xs := fun hx => ha (List.mem_cons_of_mem x hx)
          have hc' : ':' ∉ ys := fun hx => hc (List.mem_cons_of_mem x hx)
          obtain ⟨he, hbd⟩ := ih ha' hc' htail
          exact ⟨by rw [he], hbd⟩

theorem dedupKey_data (r : SearchResult) :
    (dedupKey r).data = r.source.data ++ ':' :: r.id.data := by
  simp [dedupKey, String.data_append]

theorem dedupKey_inj {r₁ r₂ : SearchResult} (h₁ : ':' ∉ r₁.source.data)
    (h₂ : ':' ∉ r₂.source.data) (h : dedupKey r₁ = dedupKey r₂) :
    resKey r₁ = resKey r₂ := by
  have hd := congrArg String.data h
  rw [dedupKey_data, dedupKey_data] at hd
  obtain ⟨hs, hi⟩ := append_colon_inj h₁ h₂ hd
  unfold resKey
  rw [string_data_inj hs, string_data_inj hi]

theorem resKey_dedupKey {r₁ r₂ : SearchResult} (h : resKey r₁ = resKey r₂) :
    dedupKey r₁ = dedupKey r₂ := by
  unfold resKey at h
  unfold dedupKey
  rw [(Prod.mk.injEq _ _ _ _).mp h |>.1, (Prod.mk.injEq _ _ _ _).mp h |>.2]

/-- Claim C9 (amended): provided no source name contains a colon (the dedup
dict key is the string `source:id`, which separates pairs only under that
proviso) and per-result score dicts have no duplicate method keys, the
deduplicated output has exactly one result per distinct (source, id) — so
the final ranked list has no duplicate (source, id) — and each output
result carries, per method, the maximum of that method's scores across its
duplicate group and the union of the group's method lists. -/
theorem C9_deduplication_by_source_id (results : List SearchResult)
    (hsc : ∀ r ∈ results, (r.scores.map Prod.fst).Nodup)
    (hcolon : ∀ r ∈ results, ':' ∉ r.source.data) :
    (((deduplicate_results results).map resKey).Nodup) ∧
    (∀ p : String × String,
      (∃ o ∈ deduplicate_results results, resKey o = p) ↔
      (∃ r ∈ results, resKey r = p)) ∧
    (∀ o ∈ deduplicate_results results,
      (∀ m, o.scores.lookup m = groupMaxScore results (dedupKey o) m) ∧
      (∀ mu, mu ∈ o.methodsUsed ↔
        ∃ r ∈ results, dedupKey r = dedupKey o ∧ mu ∈ r.methodsUsed)) ∧
    (∀ (isPersonal : Bool) (maxResults : ℤ),
      ((fuse_and_rank results isPersonal maxResults).map resKey).Nodup) := by
  have hkeys := dedup_keys_fold results [] ⟨by simp, by simp⟩
  have hok : dedupSeenOk results (results.foldl dedupStep []) := by
    have h0 : dedupSeenOk [] [] := by
      intro k
      simp [List.lookup]
    have := dedupSeenOk_fold results [] [] hsc h0
    simpa using this
  have hlook : ∀ o ∈ deduplicate_results results,
      (results.foldl dedupStep []).lookup (dedupKey o) = some o := by
    intro o ho
    obtain ⟨p, hp, hpe⟩ := List.mem_map.mp ho
    have hkey : p.1 = dedupKey p.2 := hkeys.2 p hp
    have := lookup_eq_of_mem_of_nodup hkeys.1 hp
    rw [hkey, hpe] at this
    exact this
  have hinv : ∀ o ∈ deduplicate_results results,
      (∃ r' ∈ results, r'.source = o.source ∧ r'.id = o.id) ∧
      (∀ m, o.scores.lookup m = groupMaxScore results (dedupKey o) m) ∧
      (∀ mu, mu ∈ o.methodsUsed ↔
        ∃ r ∈ results, dedupKey r = dedupKey o ∧ mu ∈ r.methodsUsed) := by
    intro o ho
    have h1 := hok (dedupKey o)
    rw [hlook o ho] at h1
    exact h1
  have hnodup : ((deduplicate_results results).map resKey).Nodup := by
    have h1 : (results.foldl dedupStep []).map Prod.fst =
        ((results.foldl dedupStep []).map Prod.snd).map dedupKey := by
      rw [List.map_map]
      exact List.map_congr_left hkeys.2
    have h2 : ((results.foldl dedupStep []).map Prod.snd).map dedupKey =
        (((results.foldl dedupStep []).map Prod.snd).map resKey).map
          (fun p => p.1 ++ ":" ++ p.2) := by
      simp only [List.map_map]
      rfl
    have h3 := hkeys.1
    rw [h1, h2] at h3
    exact List.Nodup.of_map _ h3
  refine ⟨hnodup, ?_, ?_, ?_⟩
  · intro p
    constructor
    · rintro ⟨o, ho, rfl⟩
      obtain ⟨r', hr', hs, hi⟩ := (hinv o ho).1
      exact ⟨r', hr', by simp [resKey, hs, hi]⟩
    · rintro ⟨r, hr, rfl⟩
      have h1 := hok (dedupKey r)
      cases hl : (results.foldl dedupStep []).lookup (dedupKey r) with
      | none =>
          rw [hl] at h1
          have := List.filter_eq_nil_iff.mp h1 r hr
          simp at this
      | some o =>
          rw [hl] at h1
          refine ⟨o, List.mem_map_of_mem Prod.snd (mem_of_lookup_eq_some hl), ?_⟩
          obtain ⟨r', hr', hs, hi⟩ := h1.1
          have hko : dedupKey o = dedupKey r := by
            have hp := hkeys.2 _ (mem_of_lookup_eq_some hl)
            exact hp.symm
          have hkr' : dedupKey r' = dedupKey o := by
            unfold dedupKey
            rw [hs, hi]
          have : resKey r' = resKey r :=
            dedupKey_inj (hcolon r' hr') (hcolon r hr) (hkr'.trans hko)
          have hro : resKey o = resKey r' := by
            simp [resKey, hs, hi]
          rw [hro, this]
  · intro o ho
    exact (hinv o ho).2
  · intro isPersonal maxResults
    by_cases hres : results = []
    · simp [hres, fuse_and_rank]
    · have hfr : fuse_and_rank results isPersonal maxResults =
          (pyTake maxResults (sortScoreDesc ((deduplicate_results results).map
            (fun r => (compute_fused_score r isPersonal, r))))).map Prod.snd := by
        simp [fuse_and_rank, hres]
      obtain ⟨k, hk⟩ := pyTake_eq_take maxResults
        (sortScoreDesc ((deduplicate_results results).map
          (fun r => (compute_fused_score r isPersonal, r))))
      rw [hfr, hk, List.map_map, List.map_take]
      have hperm : ((sortScoreDesc ((deduplicate_results results).map
          (fun r => (compute_fused_score r isPersonal, r)))).map
            (resKey ∘ Prod.snd)).Perm
          ((((deduplicate_results results).map
            (fun r => (compute_fused_score r isPersonal, r)))).map
            (resKey ∘ Prod.snd)) :=
        (sortScoreDesc_perm _).map _
      have hnodup2 : ((sortScoreDesc ((deduplicate_results results).map
          (fun r => (compute_fused_score r isPersonal, r)))).map
            (resKey ∘ Prod.snd)).Nodup := by
        refine hperm.nodup_iff.mpr ?_
        rw [List.map_map]
        exact hnodup
      exact hnodup2.sublist (List.take_sublist k _)

/-- Claim C9, counterexample: the dedup dict keys on the string
`source:id`, so two results with distinct (source, id) pairs — ("a:b", "c")
and ("a", "b:c") — share the key "a:b:c" and are merged into a single
output entry, though the claim requires one output per distinct pair. -/
theorem C9_counterexample :
    (deduplicate_results
      [{ id := "c", source := "a:b", scores := [("structured", 1)] },
       { id := "b:c", source := "a", scores := [("vector", 1/2)] }]).length = 1 ∧
    resKey { id := "c", source := "a:b", scores := [("structured", 1)] } ≠
      resKey { id := "b:c", source := "a", scores := [("vector", 1/2)] } := by
  constructor
  · simp [deduplicate_results, dedupStep, dedupKey, List.lookup, assocSet,
      mergeScores, pySetList]
  · simp [resKey]

/-- Claim C9, witness: the amended theorem applied to a concrete pair of
duplicates of (source, id) = ("email", "1"). -/
theorem C9_witness :
    (∀ r ∈ [({ id := "1", source := "email", scores := [("structured", 1/2)], methodsUsed := ["structured"] } : SearchResult), { id := "1", source := "email", scores := [("structured", 3/4), ("vector", 1/2)], methodsUsed := ["vector"] }], (r.scores.map Prod.fst).Nodup) ∧
    (∀ r ∈ [({ id := "1", source := "email", scores := [("structured", 1/2)], methodsUsed := ["structured"] } : SearchResult), { id := "1", source := "email", scores := [("structured", 3/4), ("vector", 1/2)], methodsUsed := ["vector"] }], ':' ∉ r.source.data) ∧
    (((deduplicate_results [({ id := "1", source := "email", scores := [("structured", 1/2)], methodsUsed := ["structured"] } : SearchResult), { id := "1", source := "email", scores := [("structured", 3/4), ("vector", 1/2)], methodsUsed := ["vector"] }]).map resKey).Nodup) := by
  refine ⟨?_, ?_, ?_⟩
  · intro r hr
    rcases List.mem_cons.mp hr with rfl | hr
    · simp
    · rcases List.mem_singleton.mp hr with rfl
      simp
  · intro r hr
    rcases List.mem_cons.mp hr with rfl | hr
    · simp
    · rcases List.mem_singleton.mp hr with rfl
      simp
  · refine (C9_deduplication_by_source_id _ ?_ ?_).1
    · intro r hr
      rcases List.mem_cons.mp hr with rfl | hr
      · simp
      · rcases List.mem_singleton.mp hr with rfl
        simp
    · intro r hr
      rcases List.mem_cons.mp hr with rfl | hr
      · simp
      · rcases List.mem_singleton.mp hr with rfl
        simp

/-- Claim C8 (amended): the deterministic intent analyzer stores as its
aggregate confidence the weighted sum
0.45·source + 0.25·query_type + 0.15·temporal + 0.15·entities rounded to
three decimal places (`round(.., 3)`), with source confidence floored at
0.7 when a fast-path multi-step plan is adopted; the deterministic intent
is used iff the source confidence is ≥ 0.55 or that rounded aggregate is
≥ 0.55. -/
theorem C8_aggregate_confidence_and_gate (ms : List SourceMatch)
    (t : TemporalSignal) (e : EntitySignal) (q : QueryTypeSignal)
    (fp : Option (List PlanStep)) :
    ((analyze ms t e q fp).sourceConfidence =
      (if (match fp with | some plan => !plan.isEmpty | none => false)
        then max (extract_source_hints ms).2 (7/10)
        else (extract_source_hints ms).2)) ∧
    ((analyze ms t e q fp).aggregateConfidence =
      pyRound3 ((analyze ms t e q fp).sourceConfidence * (45/100)
        + q.confidence * (25/100) + t.confidence * (15/100)
        + e.confidence * (15/100))) ∧
    ((analyze ms t e q fp).shouldUseDeterministic = true ↔
      ((analyze ms t e q fp).sourceConfidence ≥ 11/20 ∨
       (analyze ms t e q fp).aggregateConfidence ≥ 11/20)) := by
  refine ⟨?_, ?_, ?_⟩
  · unfold analyze
    cases fp <;> simp
  · unfold analyze
    cases fp <;> simp
  · unfold analyze
    cases fp <;> simp

/-- Claim C8, counterexample: with a single source match of confidence
0.333 and a plain search query (no temporal, no entities, default
query-type confidence 0.45), the stored aggregate confidence is
round(0.26235, 3) = 0.262, which differs from the exact weighted sum
0.26235 the claim asserts. -/
theorem C8_counterexample :
    (analyze [⟨"email", 333/1000, []⟩] ⟨none, 0⟩ ⟨[], 0⟩
      ⟨"search", none, 45/100⟩ none).aggregateConfidence = 262/1000 ∧
    (333/1000 : ℚ) * (45/100) + (45/100) * (25/100) + 0 * (15/100)
      + 0 * (15/100) = 26235/100000 ∧
    (262/1000 : ℚ) ≠ 26235/100000 := by
  refine ⟨?_, by norm_num, by norm_num⟩
  simp only [analyze, extract_source_hints, stableSortBy, List.foldr,
    insertBy, pyRound3, roundHalfEven]
  norm_num [Int.floor_eq_iff]


theorem filter_for_source_declared (reg : Registry) (source : String)
    (filters : List FilterClause) :
    ∀ f ∈ filter_for_source reg source filters,
      ∃ caps, reg.get source = some caps ∧
        f.field ∈ caps.supportedFilters.map (·.name) := by
  intro f hf
  unfold filter_for_source at hf
  cases hc : reg.get source with
  | none =>
      rw [hc] at hf
      simp at hf
  | some caps =>
      rw [hc] at hf
      obtain ⟨hmem, hfield⟩ := List.mem_filter.mp hf
      exact ⟨caps, rfl, by simpa using hfield⟩

theorem buildDecision_filters_declared (reg : Registry) (source query : String)
    (filters : List FilterClause) (intent : Intent) (mode : SearchMode)
    (groupBy : Option String) (aggregateTopN : ℤ) :
    DecisionFiltersDeclared reg
      (buildDecision reg source query filters intent mode groupBy
        aggregateTopN) := by
  intro f hf
  exact filter_for_source_declared reg source filters f hf

/-- Claim C5: every filter clause of every RoutingDecision — built by
single-step routing, by multi-hop per-step routing with extra cross-step
filters, or by any refinement round (assuming the previous round's
decisions satisfied the invariant, which the other two parts establish) —
has a field declared in the chosen source's registered capability. -/
theorem C5_decision_filters_declared (reg : Registry) :
    (∀ (renv : RouterEnv) (denv : DateEnv) (intent : Intent) (query : String),
      ∀ d ∈ (route renv denv reg intent query).decisions,
        DecisionFiltersDeclared reg d) ∧
    (∀ (denv : DateEnv) (sources : List String) (query : String)
        (intent : Intent) (extraFilters : Option (List FilterClause)),
      ∀ d ∈ decisions_for_sources denv reg sources query intent extraFilters,
        DecisionFiltersDeclared reg d) ∧
    (∀ (reason : RefinementReason) (results : List SearchResult)
        (prev : List RoutingDecision),
      (∀ d ∈ prev, DecisionFiltersDeclared reg d) →
      ∀ d ∈ refine reg reason results prev, DecisionFiltersDeclared reg d) := by
  refine ⟨?_, ?_, ?_⟩
  · intro renv denv intent query d hd
    unfold route at hd
    simp only [List.mem_map] at hd
    obtain ⟨src, _, rfl⟩ := hd
    exact buildDecision_filters_declared reg src query _ intent _ _ _
  · intro denv sources query intent extraFilters d hd
    unfold decisions_for_sources at hd
    simp only [List.mem_map] at hd
    obtain ⟨src, _, rfl⟩ := hd
    exact buildDecision_filters_declared reg src query _ intent _ _ _
  · intro reason results prev hprev d hd
    unfold refine at hd
    have hd' := List.take_subset 4 _ hd
    cases reason with
    | noResults =>
        simp only [List.mem_map] at hd'
        obtain ⟨d0, _, rfl⟩ := hd'
        intro f hf
        simp at hf
    | lowSourceCoverage =>
        simp only [List.mem_map] at hd'
        obtain ⟨d0, _, rfl⟩ := hd'
        intro f hf
        simp at hf
    | lowConfidence =>
        simp only [List.mem_filterMap] at hd'
        obtain ⟨d0, hd0, hmk⟩ := hd'
        by_cases hnm : ((if "fulltext" ∉ d0.methods ∧
            reg.canHandle d0.source "fulltext" = true then ["fulltext"]
            else []) ++
          (if "vector" ∉ d0.methods ∧ reg.canHandle d0.source "vector" = true
            then ["vector"] else [])) = []
        · rw [if_pos hnm] at hmk
          exact absurd hmk (by simp)
        · rw [if_neg hnm] at hmk
          obtain rfl := Option.some.injEq _ _ ▸ hmk
          intro f hf
          exact hprev d0 hd0 f hf
    | singleSource =>
        simp only [List.mem_map, List.mem_filter] at hd'
        obtain ⟨d0, ⟨hd0, _⟩, rfl⟩ := hd'
        intro f hf
        exact hprev d0 hd0 f hf

/-- Claim C5, witness: the refinement part applied to a concrete registry
and a concrete previous decision (whose empty filter list satisfies the
invariant trivially), together with a concrete single-step routing run. -/
theorem C5_witness :
    (∀ d ∈ [({ source := "email", methods := ["vector"], query := "q" } :
        RoutingDecision)], DecisionFiltersDeclared [] d) ∧
    (∀ d ∈ refine [] RefinementReason.noResults []
        [({ source := "email", methods := ["vector"], query := "q" } :
          RoutingDecision)],
      DecisionFiltersDeclared [] d) := by
  constructor
  · intro d hd
    rcases List.mem_singleton.mp hd with rfl
    intro f hf
    simp at hf
  · refine (C5_decision_filters_declared []).2.2 RefinementReason.noResults []
      [({ source := "email", methods := ["vector"], query := "q" } :
        RoutingDecision)] ?_
    intro d hd
    rcases List.mem_singleton.mp hd with rfl
    intro f hf
    simp at hf

theorem fuse_and_rank_length_le (results : List SearchResult)
    (isPersonal : Bool) (n : ℤ) (hn : 0 ≤ n) :
    (fuse_and_rank results isPersonal n).length ≤ n.toNat := by
  unfold fuse_and_rank
  by_cases hres : results = []
  · simp [hres]
  · simp only [if_neg hres, List.length_map]
    unfold pyTake
    rw [if_pos hn, List.length_take]
    omega

theorem dedupStep_length_le (seen : List (String × SearchResult))
    (r : SearchResult) : seen.length ≤ (dedupStep seen r).length := by
  unfold dedupStep
  cases seen.lookup (dedupKey r) with
  | none => simp
  | some existing => simp [assocSet]

theorem dedup_fold_length_le (l : List SearchResult) :
    ∀ seen, seen.length ≤ (l.foldl dedupStep seen).length := by
  induction l with
  | nil => intro seen; simp
  | cons r rest ih =>
      intro seen
      exact le_trans (dedupStep_length_le seen r) (ih (dedupStep seen r))

theorem deduplicate_results_ne_nil {results : List SearchResult}
    (h : results ≠ []) : deduplicate_results results ≠ [] := by
  cases results with
  | nil => exact absurd rfl h
  | cons r rest =>
      apply List.length_pos.mp
      unfold deduplicate_results
      simp only [List.foldl_cons, List.length_map]
      have h0 : (dedupStep [] r).length = 1 := by
        simp [dedupStep, List.lookup]
      have := dedup_fold_length_le rest (dedupStep [] r)
      omega

theorem fuse_and_rank_length_pos (results : List SearchResult)
    (isPersonal : Bool) (n : ℤ) (hn : 1 ≤ n) (h : results ≠ []) :
    1 ≤ (fuse_and_rank results isPersonal n).length := by
  unfold fuse_and_rank
  rw [if_neg h]
  simp only [List.length_map]
  unfold pyTake
  rw [if_pos (by omega : (0:ℤ) ≤ n), List.length_take]
  have hlen : 1 ≤ (sortScoreDesc ((deduplicate_results results).map
      (fun r => (compute_fused_score r isPersonal, r)))).length := by
    rw [(sortScoreDesc_perm _).length_eq, List.length_map]
    exact List.length_pos.mpr (deduplicate_results_ne_nil h)
  have hn' : 1 ≤ n.toNat := by omega
  omega

theorem except_bind_ok {α β : Type} {x : Except Unit α} {f : α → Except Unit β}
    {b : β} (h : x >>= f = .ok b) : ∃ a, x = .ok a ∧ f a = .ok b := by
  cases x with
  | ok a => exact ⟨a, rfl, h⟩
  | error e => exact Except.noConfusion h

theorem finish_search_raw_results_le (env : OrchestratorEnv)
    (raw : RawIntent) (query : String) (allResults : List SearchResult)
    (errors : List String) (decisionsForRun : List RoutingDecision)
    (complexityForMeta : RoutingComplexity)
    (sourceMatchTrace : List SourceMatch) (broadNote : Option String)
    (count : Option JVal) (countSource : Option String)
    (aggregates : List AggregateGroup) (aggregatesSource : Option String)
    (n : ℤ) (doRef : Bool) (rounds : ℕ) (hn : 0 ≤ n) (resp : Response)
    (h : finish_search_raw env raw query allResults errors decisionsForRun
      complexityForMeta sourceMatchTrace broadNote count countSource
      aggregates aggregatesSource n doRef rounds = .ok resp) :
    resp.results.length ≤ n.toNat := by
  unfold finish_search_raw at h
  dsimp only at h
  split at h
  all_goals
    obtain ⟨lo, _, hres⟩ := except_bind_ok h
    try dsimp only at hres
    injection hres with hres
    subst hres
    exact fuse_and_rank_length_le _ _ _ hn

theorem search_after_intent_raw_results_le (env : OrchestratorEnv)
    (query : String) (raw : RawIntent) (n : ℤ) (doRef : Bool) (rounds : ℕ)
    (hn : 0 ≤ n) (resp : Response)
    (h : search_after_intent_raw env query raw n doRef rounds = .ok resp) :
    resp.results.length ≤ n.toNat := by
  unfold search_after_intent_raw at h
  try dsimp only at h
  obtain ⟨len0, _, h⟩ := except_bind_ok h
  try dsimp only at h
  split at h
  · obtain ⟨mh, _, h⟩ := except_bind_ok h
    try dsimp only at h
    split at h
    · injection h with h
      subst h
      simp
    · exact finish_search_raw_results_le _ _ _ _ _ _ _ _ _ _ _ _ _ _ _ _ hn
        _ h
  · obtain ⟨rp, _, h⟩ := except_bind_ok h
    try dsimp only at h
    split at h
    · injection h with h
      subst h
      simp
    · exact finish_search_raw_results_le _ _ _ _ _ _ _ _ _ _ _ _ _ _ _ _ hn
        _ h

theorem orchestrator_search_results_le (env : OrchestratorEnv)
    (cc um : String) (n : ℤ) (doRef : Bool) (rounds : ℕ) (r : Response)
    (hn : 0 ≤ n)
    (h : orchestrator_search env cc um n doRef rounds = .ok r) :
    r.results.length ≤ n.toNat := by
  unfold orchestrator_search at h
  dsimp only at h
  repeat' split at h
  all_goals first
    | (injection h with h
       subst h
       simp)
    | exact search_after_intent_raw_results_le _ _ _ _ _ _ hn _ h
    | exact Except.noConfusion h

/-- Claim C4: every inbound tool search call clamps max_results to [1, 50]
before use (`min(50, max(1, n))`, default 20 on a missing or unparseable
argument); the returned results list never has more than 50 entries even
when max_results > 50 is passed, and a non-positive max_results still
permits at least one result when any are available. -/
theorem C4_max_results_clamped :
    (∀ arg : Option ℤ, 1 ≤ toolMaxResults arg ∧ toolMaxResults arg ≤ 50) ∧
    (∀ (env : OrchestratorEnv) (cc um : String) (arg : Option ℤ)
        (doRef : Bool) (rounds : ℕ) (r : Response),
      orchestrator_search env cc um (toolMaxResults arg) doRef rounds =
        .ok r →
      r.results.length ≤ 50) ∧
    (∀ (results : List SearchResult) (isPersonal : Bool) (arg : Option ℤ),
      results ≠ [] →
      1 ≤ (fuse_and_rank results isPersonal (toolMaxResults arg)).length) := by
  have hb : ∀ arg : Option ℤ,
      1 ≤ toolMaxResults arg ∧ toolMaxResults arg ≤ 50 := by
    intro arg
    cases arg with
    | none => simp [toolMaxResults]
    | some n =>
        simp only [toolMaxResults]
        omega
  refine ⟨hb, ?_, ?_⟩
  · intro env cc um arg doRef rounds r h
    have h1 := orchestrator_search_results_le env cc um _ doRef rounds r
      (by have := (hb arg).1; omega) h
    have h2 := hb arg
    omega
  · intro results isPersonal arg h
    exact fuse_and_rank_length_pos _ _ _ (hb arg).1 h

/-- Claim C4, witness: the clamp and the bounds applied at concrete
arguments — `max_results=100` on an empty-context call (clamped to 50,
response has ≤ 50 results) and `max_results=0` on a non-empty fusion input
(clamped to 1, at least one result survives). -/
theorem C4_witness :
    toolMaxResults (some 100) = 50 ∧
    orchestrator_search trivialEnv "" "" (toolMaxResults (some 100)) true 1 =
      .ok { results := [], errors := ["No context provided for search."],
            meta := [("query", .str ""), ("sources_queried", .strList []),
                     ("methods_used", .strList []), ("iterations", .num 0),
                     ("total_results", .num 0), ("complexity", .str "simple"),
                     ("intent_trace", .intentTrace), ("timing_ms", .timing)] } ∧
    ({ results := [], errors := ["No context provided for search."],
       meta := [("query", .str ""), ("sources_queried", .strList []),
                ("methods_used", .strList []), ("iterations", .num 0),
                ("total_results", .num 0), ("complexity", .str "simple"),
                ("intent_trace", .intentTrace), ("timing_ms", .timing)] } :
      Response).results.length ≤ 50 ∧
    ([({ id := "1", source := "email", scores := [("structured", 1)] } :
      SearchResult)] ≠ []) ∧
    1 ≤ (fuse_and_rank
      [({ id := "1", source := "email", scores := [("structured", 1)] } :
        SearchResult)] true (toolMaxResults (some 0))).length := by
  have h1 : orchestrator_search trivialEnv "" ""
      (toolMaxResults (some 100)) true 1 =
      .ok { results := [], errors := ["No context provided for search."],
            meta := [("query", .str ""), ("sources_queried", .strList []),
                     ("methods_used", .strList []), ("iterations", .num 0),
                     ("total_results", .num 0), ("complexity", .str "simple"),
                     ("intent_trace", .intentTrace), ("timing_ms", .timing)] } := by
    rfl
  refine ⟨rfl, h1, ?_, by simp, ?_⟩
  · exact C4_max_results_clamped.2.1 trivialEnv "" "" (some 100) true 1 _ h1
  · exact C4_max_results_clamped.2.2
      [({ id := "1", source := "email", scores := [("structured", 1)] } :
        SearchResult)] true (some 0) (by simp)

/-! ## Lemmas: totality of intent-dict consumption -/

theorem ok_bind {α β : Type} (a : α) (f : α → Except Unit β) :
    (Except.ok a >>= f) = f a := rfl

theorem bind_ok_of_ok {α β : Type} {x : Except Unit α} {f : α → Except Unit β}
    (hx : ∃ a, x = .ok a) (hf : ∀ a, ∃ b, f a = .ok b) :
    ∃ b, x >>= f = .ok b := by
  obtain ⟨a, ha⟩ := hx
  obtain ⟨b, hb⟩ := hf a
  exact ⟨b, by rw [ha, ok_bind, hb]⟩

theorem foldlM_ok {α β : Type} (f : β → α → Except Unit β) :
    ∀ l : List α, (∀ b a, a ∈ l → ∃ b2, f b a = .ok b2) →
    ∀ init, ∃ out, List.foldlM f init l = .ok out := by
  intro l
  induction l with
  | nil => exact fun _ init => ⟨init, rfl⟩
  | cons a t ih =>
      intro hf init
      obtain ⟨b2, hb⟩ := hf init a (List.mem_cons_self a t)
      obtain ⟨out, hout⟩ :=
        ih (fun b x hx => hf b x (List.mem_cons_of_mem _ hx)) b2
      exact ⟨out, by rw [List.foldlM_cons, hb, ok_bind]; exact hout⟩

theorem lenOrEmpty_ok (v : JVal) (hv : lenArgOk v = true) :
    ∃ n, lenOrEmpty v = .ok n := by
  unfold lenOrEmpty
  by_cases ht : v.truthy
  · rw [if_pos ht]
    unfold lenArgOk at hv
    rw [ht] at hv
    simp only [Bool.not_true, Bool.false_or] at hv
    cases v <;> simp [sizedOk] at hv <;> exact ⟨_, rfl⟩
  · rw [if_neg ht]
    exact ⟨0, rfl⟩

theorem hintStrings_ok (v : JVal)
    (hv : v.truthy = false ∨ sizedOk v = true) :
    ∃ l, hintStrings v = .ok l := by
  unfold hintStrings
  by_cases ht : v.truthy
  · rw [if_pos ht]
    rcases hv with hv | hv
    · rw [ht] at hv
      exact Bool.noConfusion hv
    · cases v <;> simp [sizedOk] at hv <;> exact ⟨_, rfl⟩
  · rw [if_neg ht]
    exact ⟨[], rfl⟩

theorem pyStripOrRaise_ok (v : JVal) (hv : strFieldOk v = true) :
    ∃ s, pyStripOrRaise v = .ok s := by
  unfold pyStripOrRaise
  by_cases ht : v.truthy
  · rw [if_pos ht]
    unfold strFieldOk at hv
    rw [ht] at hv
    simp only [Bool.not_true, Bool.false_or] at hv
    cases v <;> simp at hv <;> exact ⟨_, rfl⟩
  · rw [if_neg ht]
    exact ⟨"", rfl⟩

theorem entityFilterOf_ok (e : List (String × JVal))
    (he : entityOk (.jobj e) = true) :
    ∃ fs, entityFilterOf e = .ok fs := by
  unfold entityOk at he
  simp only [Bool.and_eq_true] at he
  obtain ⟨hn, hm⟩ := he
  unfold entityFilterOf
  refine bind_ok_of_ok (pyStripOrRaise_ok _ hn) (fun name => ?_)
  refine bind_ok_of_ok (pyStripOrRaise_ok _ hm) (fun email => ?_)
  dsimp only
  split
  · exact ⟨_, rfl⟩
  · split
    · exact ⟨_, rfl⟩
    · exact ⟨_, rfl⟩

theorem entityFiltersRaw_ok (v : JVal) (hv : entitiesOk v = true) :
    ∃ fs, entityFiltersRaw v = .ok fs := by
  unfold entityFiltersRaw
  by_cases ht : v.truthy
  · rw [if_pos ht]
    unfold entitiesOk at hv
    rw [ht] at hv
    simp only [Bool.not_true, Bool.false_or] at hv
    cases v with
    | jarr l =>
        simp only [List.all_eq_true] at hv
        refine foldlM_ok _ l (fun acc el hel => ?_) []
        cases el with
        | jobj e =>
            refine bind_ok_of_ok (entityFilterOf_ok e (hv _ hel)) (fun fs => ?_)
            exact ⟨_, rfl⟩
        | jstr s => exact ⟨acc, rfl⟩
        | jnum q => exact ⟨acc, rfl⟩
        | jbool b => exact ⟨acc, rfl⟩
        | jnull => exact ⟨acc, rfl⟩
        | jarr l2 => exact ⟨acc, rfl⟩
    | jstr s => exact ⟨[], rfl⟩
    | jobj fs => exact ⟨[], rfl⟩
    | jnum q => exact absurd hv (by simp [sizedOk])
    | jbool b => exact absurd hv (by simp [sizedOk])
    | jnull => exact absurd hv (by simp [sizedOk])
  · rw [if_neg ht]
    exact ⟨[], rfl⟩

theorem extract_filters_raw_ok (denv : DateEnv) (raw : RawIntent)
    (hv : entitiesOk (rawGet raw "entities") = true) :
    ∃ fs, extract_filters_raw denv raw = .ok fs := by
  unfold extract_filters_raw
  exact bind_ok_of_ok (entityFiltersRaw_ok _ hv) (fun fs => ⟨_, rfl⟩)

theorem mode_group_top_raw_ok (reg : Registry) (raw : RawIntent)
    (sources : List String) (hv : topNArgOk raw = true) :
    ∃ r, mode_group_top_raw reg raw sources = .ok r := by
  unfold mode_group_top_raw
  dsimp only
  split
  · exact ⟨_, rfl⟩
  · have hint : ∃ k,
        pyInt (if ((raw.lookup "aggregate_top_n").getD (.jnum 10)).truthy
          then (raw.lookup "aggregate_top_n").getD (.jnum 10)
          else .jnum 10) = .ok k := by
      unfold topNArgOk at hv
      dsimp only at hv
      by_cases ht : ((raw.lookup "aggregate_top_n").getD (.jnum 10)).truthy
      · rw [if_pos ht]
        rw [ht] at hv
        simp only [Bool.not_true, Bool.false_or] at hv
        cases hvv : (raw.lookup "aggregate_top_n").getD (.jnum 10) with
        | jstr s =>
            rw [hvv] at hv
            unfold intArgOk at hv
            dsimp only at hv
            cases hps : pyIntOfStr s with
            | ok k => exact ⟨k, hps⟩
            | error e => rw [hps] at hv; exact Bool.noConfusion hv
        | jnum q => exact ⟨_, rfl⟩
        | jbool b => exact ⟨_, rfl⟩
        | jnull => rw [hvv] at hv; exact Bool.noConfusion hv
        | jarr l => rw [hvv] at hv; exact Bool.noConfusion hv
        | jobj fs => rw [hvv] at hv; exact Bool.noConfusion hv
      · rw [if_neg ht]
        exact ⟨10, rfl⟩
    refine bind_ok_of_ok hint (fun k => ?_)
    dsimp only
    repeat' split
    all_goals exact ⟨_, rfl⟩

theorem entitiesOk_lenArgOk (v : JVal) (hv : entitiesOk v = true) :
    lenArgOk v = true := by
  unfold entitiesOk at hv
  unfold lenArgOk
  cases hb : v.truthy
  · simp
  · rw [hb] at hv
    simp only [Bool.not_true, Bool.false_or] at hv ⊢
    cases v <;> simp_all [sizedOk]

theorem hintsField_facts (raw : RawIntent) (hv : hintsFieldOk raw = true) :
    lenArgOk (rawGet raw "source_hints") = true ∧
    ((rawGet raw "source_hints").truthy = false ∨
      sizedOk (rawGet raw "source_hints") = true) ∧
    ∃ n, pyLenSized ((raw.lookup "source_hints").getD (.jarr [])) = .ok n := by
  unfold hintsFieldOk at hv
  unfold rawGet
  cases hl : raw.lookup "source_hints" with
  | none =>
      exact ⟨rfl, Or.inl rfl, 0, rfl⟩
  | some v =>
      rw [hl] at hv
      try dsimp only at hv
      refine ⟨?_, Or.inr hv, ?_⟩
      · simp [lenArgOk, Option.getD, hv]
      · cases v <;> simp [sizedOk] at hv <;> exact ⟨_, rfl⟩

theorem classify_complexity_raw_ok (raw : RawIntent)
    (hh : lenArgOk (rawGet raw "source_hints") = true)
    (he : lenArgOk (rawGet raw "entities") = true) :
    ∃ c, classify_complexity_raw raw = .ok c := by
  obtain ⟨n1, e1⟩ := lenOrEmpty_ok _ hh
  obtain ⟨n2, e2⟩ := lenOrEmpty_ok _ he
  unfold classify_complexity_raw
  dsimp only
  rw [e1, e2]
  simp only [ok_bind]
  repeat' split
  all_goals exact ⟨_, rfl⟩

theorem select_sources_raw_ok (renv : RouterEnv) (reg : Registry)
    (raw : RawIntent) (query : String)
    (hv : (rawGet raw "source_hints").truthy = false ∨
      sizedOk (rawGet raw "source_hints") = true) :
    ∃ r, select_sources_raw renv reg raw query = .ok r := by
  unfold select_sources_raw
  split
  · exact ⟨_, rfl⟩
  · exact bind_ok_of_ok (hintStrings_ok _ hv) (fun hints => ⟨_, rfl⟩)

theorem route_raw_ok (renv : RouterEnv) (denv : DateEnv) (reg : Registry)
    (raw : RawIntent) (query : String) (hh : hintsFieldOk raw = true)
    (he : entitiesOk (rawGet raw "entities") = true)
    (ht : topNArgOk raw = true) :
    ∃ r, route_raw renv denv reg raw query = .ok r := by
  obtain ⟨hh1, hh2, hh3⟩ := hintsField_facts raw hh
  unfold route_raw
  refine bind_ok_of_ok (classify_complexity_raw_ok raw hh1
    (entitiesOk_lenArgOk _ he)) (fun c => ?_)
  refine bind_ok_of_ok (select_sources_raw_ok renv reg raw query hh2)
    (fun ss => ?_)
  rcases ss with ⟨ts, ud, sm⟩
  dsimp only
  refine bind_ok_of_ok (extract_filters_raw_ok denv raw he) (fun fs => ?_)
  refine bind_ok_of_ok (mode_group_top_raw_ok reg raw ts ht) (fun mg => ?_)
  rcases mg with ⟨mode, gb, tn⟩
  exact ⟨_, rfl⟩

theorem decisions_for_sources_raw_ok (denv : DateEnv) (reg : Registry)
    (raw : RawIntent) (sources : List String) (query : String)
    (extraFilters : Option (List FilterClause))
    (he : entitiesOk (rawGet raw "entities") = true)
    (ht : topNArgOk raw = true) :
    ∃ ds, decisions_for_sources_raw denv reg raw sources query extraFilters =
      .ok ds := by
  unfold decisions_for_sources_raw
  refine bind_ok_of_ok (extract_filters_raw_ok denv raw he) (fun fs => ?_)
  dsimp only
  refine bind_ok_of_ok (mode_group_top_raw_ok reg raw sources ht) (fun mg => ?_)
  rcases mg with ⟨mode, gb, tn⟩
  exact ⟨_, rfl⟩

theorem run_multihop_step_raw_ok (env : OrchestratorEnv) (query : String)
    (raw : RawIntent) (plan : List (List (String × JVal)))
    (st : MultihopState) (idxStep : ℕ × List (String × JVal))
    (he : entitiesOk (rawGet raw "entities") = true)
    (ht : topNArgOk raw = true) :
    ∃ st2, run_multihop_step_raw env query raw plan st idxStep = .ok st2 := by
  unfold run_multihop_step_raw
  rcases idxStep with ⟨stepIdx, step⟩
  dsimp only
  refine bind_ok_of_ok
    (decisions_for_sources_raw_ok env.dates env.reg raw _ query
      st.extraFilters he ht) (fun ds => ?_)
  dsimp only
  split
  · exact ⟨_, rfl⟩
  · exact ⟨_, rfl⟩

theorem run_multihop_raw_ok (env : OrchestratorEnv) (query : String)
    (raw : RawIntent) (plan : List (List (String × JVal)))
    (he : entitiesOk (rawGet raw "entities") = true)
    (ht : topNArgOk raw = true) :
    ∃ st, run_multihop_raw env query raw plan = .ok st := by
  unfold run_multihop_raw
  exact foldlM_ok _ plan.enum
    (fun st x _ => run_multihop_step_raw_ok env query raw plan st x he ht) {}

theorem should_refine_raw_ok (results : List SearchResult) (raw : RawIntent)
    (decisions : List RoutingDecision)
    (hh : ∃ n, pyLenSized ((raw.lookup "source_hints").getD (.jarr [])) =
      .ok n) :
    ∃ r, should_refine_raw results raw decisions = .ok r := by
  unfold should_refine_raw
  dsimp only
  split
  · split
    · exact ⟨_, rfl⟩
    · exact ⟨_, rfl⟩
  · split
    · exact ⟨_, rfl⟩
    · split
      · exact ⟨_, rfl⟩
      · split
        · refine bind_ok_of_ok hh (fun nh => ?_)
          dsimp only
          split
          · split
            · exact ⟨_, rfl⟩
            · exact ⟨_, rfl⟩
          · exact ⟨_, rfl⟩
        · exact ⟨_, rfl⟩

theorem refinement_loop_raw_ok (env : OrchestratorEnv) (raw : RawIntent)
    (decisionsForRun : List RoutingDecision)
    (hh : ∃ n, pyLenSized ((raw.lookup "source_hints").getD (.jarr [])) =
      .ok n) :
    ∀ (fuel : ℕ) (res : List SearchResult) (errs : List String) (iter : ℕ)
      (notes : List String) (fired : List RefinementReason),
      ∃ out, refinement_loop_raw env raw decisionsForRun fuel res errs iter
        notes fired = .ok out := by
  intro fuel
  induction fuel with
  | zero =>
      intro res errs iter notes fired
      exact ⟨_, rfl⟩
  | succ n ih =>
      intro res errs iter notes fired
      unfold refinement_loop_raw
      obtain ⟨sr, hsr⟩ := should_refine_raw_ok res raw decisionsForRun hh
      rw [hsr]
      rcases sr with ⟨b, reason⟩
      cases b
      · exact ⟨_, rfl⟩
      · cases reason with
        | none => exact ⟨_, rfl⟩
        | some r =>
            dsimp only
            split
            · exact ⟨_, rfl⟩
            · exact ih _ _ _ _ _

theorem finish_search_raw_ok (env : OrchestratorEnv) (raw : RawIntent)
    (query : String) (allResults : List SearchResult) (errors : List String)
    (decisionsForRun : List RoutingDecision)
    (complexityForMeta : RoutingComplexity)
    (sourceMatchTrace : List SourceMatch) (broadNote : Option String)
    (count : Option JVal) (countSource : Option String)
    (aggregates : List AggregateGroup) (aggregatesSource : Option String)
    (maxResults : ℤ) (doRef : Bool) (rounds : ℕ)
    (hh : ∃ n, pyLenSized ((raw.lookup "source_hints").getD (.jarr [])) =
      .ok n) :
    ∃ resp, finish_search_raw env raw query allResults errors decisionsForRun
      complexityForMeta sourceMatchTrace broadNote count countSource
      aggregates aggregatesSource maxResults doRef rounds = .ok resp := by
  unfold finish_search_raw
  dsimp only
  split
  · exact bind_ok_of_ok
      (refinement_loop_raw_ok env raw decisionsForRun hh _ _ _ _ _ _)
      (fun lo => ⟨_, rfl⟩)
  · exact bind_ok_of_ok ⟨_, rfl⟩ (fun lo => ⟨_, rfl⟩)

theorem search_after_intent_raw_ok (env : OrchestratorEnv) (query : String)
    (raw : RawIntent) (n : ℤ) (doRef : Bool) (rounds : ℕ)
    (hw : WellTypedIntentDict raw = true) :
    ∃ resp, search_after_intent_raw env query raw n doRef rounds =
      .ok resp := by
  unfold WellTypedIntentDict at hw
  simp only [Bool.and_eq_true] at hw
  obtain ⟨⟨⟨hplan, hhints⟩, hent⟩, htop⟩ := hw
  obtain ⟨hh1, hh2, hh3⟩ := hintsField_facts raw hhints
  unfold search_after_intent_raw
  refine bind_ok_of_ok (lenOrEmpty_ok _ hplan) (fun len0 => ?_)
  dsimp only
  split
  · refine bind_ok_of_ok (run_multihop_raw_ok env query raw _ hent htop)
      (fun mh => ?_)
    dsimp only
    split
    · exact ⟨_, rfl⟩
    · exact finish_search_raw_ok env raw query _ _ _ _ _ _ _ _ _ _ _ _ _ hh3
  · refine bind_ok_of_ok (route_raw_ok ⟨env.matchSources⟩ env.dates env.reg
      raw query hhints hent htop) (fun rp => ?_)
    dsimp only
    split
    · exact ⟨_, rfl⟩
    · exact finish_search_raw_ok env raw query _ _ _ _ _ _ _ _ _ _ _ _ _ hh3

theorem search_after_intent_raw_no_error (env : OrchestratorEnv)
    (query : String) (raw : RawIntent) (n : ℤ) (doRef : Bool) (rounds : ℕ)
    (e : Unit) (hw : WellTypedIntentDict raw = true)
    (h : search_after_intent_raw env query raw n doRef rounds = .error e) :
    False := by
  obtain ⟨resp, hresp⟩ :=
    search_after_intent_raw_ok env query raw n doRef rounds hw
  rw [h] at hresp
  exact Except.noConfusion hresp

theorem rawOfIntent_wellTyped (i : Intent) :
    WellTypedIntentDict (rawOfIntent i) = true := by
  have hplan : (rawOfIntent i).lookup "retrieval_plan" =
      some (match i.retrievalPlan with
        | some ps => .jarr (ps.map rawPlanStep)
        | none => .jnull) := rfl
  have hhints : (rawOfIntent i).lookup "source_hints" =
      some (.jarr (i.sourceHints.map .jstr)) := rfl
  have hent : (rawOfIntent i).lookup "entities" =
      some (.jarr (i.entities.map (fun e =>
        .jobj [("role", .jstr e.role), ("name", .jstr e.name),
               ("email", .jstr e.email)]))) := rfl
  have htop : (rawOfIntent i).lookup "aggregate_top_n" =
      some (.jnum i.aggregateTopN) := rfl
  unfold WellTypedIntentDict
  simp only [Bool.and_eq_true]
  refine ⟨⟨⟨?_, ?_⟩, ?_⟩, ?_⟩
  · unfold rawGet
    rw [hplan]
    cases i.retrievalPlan <;>
      simp [lenArgOk, sizedOk, JVal.truthy, Option.getD]
  · unfold hintsFieldOk
    rw [hhints]
    simp [sizedOk]
  · unfold rawGet
    rw [hent]
    simp only [Option.getD]
    unfold entitiesOk
    try dsimp only
    rw [Bool.or_eq_true]
    refine Or.inr ?_
    try dsimp only
    simp only [List.all_eq_true, List.mem_map]
    rintro el ⟨e, he, rfl⟩
    have hn : List.lookup "name"
        [("role", JVal.jstr e.role), ("name", JVal.jstr e.name),
         ("email", JVal.jstr e.email)] = some (.jstr e.name) := rfl
    have hm : List.lookup "email"
        [("role", JVal.jstr e.role), ("name", JVal.jstr e.name),
         ("email", JVal.jstr e.email)] = some (.jstr e.email) := rfl
    unfold entityOk
    try dsimp only
    rw [hn, hm]
    simp [strFieldOk]
  · unfold topNArgOk
    try dsimp only
    rw [htop]
    simp [Option.getD, intArgOk]

theorem intent_step_ok_of_wellTyped (env : OrchestratorEnv)
    (det : DeterministicResult)
    (hlm : ∃ raw, env.lmIntent = .ok (.jobj raw) ∧
      WellTypedIntentDict raw = true) :
    ∃ raw, intent_step env det = .ok raw ∧ WellTypedIntentDict raw = true := by
  unfold intent_step
  split
  · exact ⟨_, rfl, rawOfIntent_wellTyped _⟩
  · obtain ⟨raw, hraw, hwt⟩ := hlm
    rw [hraw]
    exact ⟨raw, rfl, hwt⟩

theorem intent_step_error_cases (env : OrchestratorEnv)
    (det : DeterministicResult) (e : Unit)
    (h : intent_step env det = .error e) :
    env.lmIntent = .error () ∨
    ∃ v, env.lmIntent = .ok v ∧ IntentDictOk v = false := by
  unfold intent_step at h
  split at h
  · exact Except.noConfusion h
  · cases hlm : env.lmIntent with
    | error u =>
        cases u
        exact Or.inl rfl
    | ok v =>
        rw [hlm] at h
        cases v with
        | jobj raw => exact Except.noConfusion h
        | jstr s => exact Or.inr ⟨_, rfl, rfl⟩
        | jnum q => exact Or.inr ⟨_, rfl, rfl⟩
        | jbool b => exact Or.inr ⟨_, rfl, rfl⟩
        | jnull => exact Or.inr ⟨_, rfl, rfl⟩
        | jarr l => exact Or.inr ⟨_, rfl, rfl⟩

theorem intent_step_ok_cases (env : OrchestratorEnv)
    (det : DeterministicResult) (raw : RawIntent)
    (h : intent_step env det = .ok raw) :
    raw = rawOfIntent det.intent ∨ env.lmIntent = .ok (.jobj raw) := by
  unfold intent_step at h
  split at h
  · injection h with h
    exact Or.inl h.symm
  · cases hlm : env.lmIntent with
    | error u => rw [hlm] at h; exact Except.noConfusion h
    | ok v =>
        rw [hlm] at h
        cases v with
        | jobj raw2 =>
            injection h with h
            subst h
            exact Or.inr rfl
        | jstr s => exact Except.noConfusion h
        | jnum q => exact Except.noConfusion h
        | jbool b => exact Except.noConfusion h
        | jnull => exact Except.noConfusion h
        | jarr l => exact Except.noConfusion h

theorem intent_step_wellTyped (env : OrchestratorEnv)
    (det : DeterministicResult) (raw : RawIntent)
    (hlm : ∃ raw0, env.lmIntent = .ok (.jobj raw0) ∧
      WellTypedIntentDict raw0 = true)
    (h : intent_step env det = .ok raw) : WellTypedIntentDict raw = true := by
  unfold intent_step at h
  split at h
  · injection h with h
    subst h
    exact rawOfIntent_wellTyped _
  · obtain ⟨raw0, hraw0, hwt⟩ := hlm
    rw [hraw0] at h
    dsimp only at h
    injection h with h
    subst h
    exact hwt

theorem intent_step_no_error (env : OrchestratorEnv)
    (det : DeterministicResult) (e : Unit)
    (hlm : ∃ raw0, env.lmIntent = .ok (.jobj raw0) ∧
      WellTypedIntentDict raw0 = true)
    (h : intent_step env det = .error e) : False := by
  obtain ⟨raw2, hstep, _⟩ := intent_step_ok_of_wellTyped env det hlm
  rw [h] at hstep
  exact Except.noConfusion hstep

theorem search_error_lm_bad (env : OrchestratorEnv)
    (det : DeterministicResult) (q : String) (raw : RawIntent) (n : ℤ)
    (doRef : Bool) (rounds : ℕ) (e : Unit)
    (hstep : intent_step env det = .ok raw)
    (h : search_after_intent_raw env q raw n doRef rounds = .error e) :
    env.lmIntent = .error () ∨
    ∃ v, env.lmIntent = .ok v ∧ IntentDictOk v = false := by
  rcases intent_step_ok_cases env det raw hstep with hdet | hlm2
  · subst hdet
    exact (search_after_intent_raw_no_error _ _ _ _ _ _ _
      (rawOfIntent_wellTyped _) h).elim
  · by_cases hwt : WellTypedIntentDict raw = true
    · exact (search_after_intent_raw_no_error _ _ _ _ _ _ _ hwt h).elim
    · refine Or.inr ⟨.jobj raw, hlm2, ?_⟩
      unfold IntentDictOk
      exact Bool.eq_false_iff.mpr hwt

/-- Claim C3 (amended): the orchestrator returns a Response, surfacing
recoverable failures in its errors and notes fields, whenever the
language-model fallback path does not raise — in particular whenever the
fallback returns a dict all of whose consumption sites are well typed; a
thrown search exception can only originate in the fallback path: the call
itself raising, its output parsing to a non-dict, or an ill-typed field of
the returned dict raising at a consumption site.  The universal-search
tool converts any such exception into a failed tool result. -/
theorem C3_search_returns_response_unless_lm_raises (env : OrchestratorEnv)
    (cc um : String) (mr : ℤ) (doRef : Bool) (rounds : ℕ) :
    ((∃ raw, env.lmIntent = .ok (.jobj raw) ∧
        WellTypedIntentDict raw = true) →
      ∃ r, orchestrator_search env cc um mr doRef rounds = .ok r) ∧
    (∀ e, orchestrator_search env cc um mr doRef rounds = .error e →
      env.lmIntent = .error () ∨
      ∃ v, env.lmIntent = .ok v ∧ IntentDictOk v = false) ∧
    (∀ rounds2 : ℕ,
      orchestrator_search env (pyStrip cc) (pyStrip um)
          (toolMaxResults none) true rounds2 = .error () →
      pyStrip (if cc ≠ "" then cc else um) ≠ "" →
      tool_execute env cc um none rounds2 =
        .fail "Universal search failed: <exception>") := by
  refine ⟨?_, ?_, ?_⟩
  · intro hlm
    unfold orchestrator_search
    dsimp only
    repeat' split
    all_goals first
      | exact ⟨_, rfl⟩
      | exact search_after_intent_raw_ok env _ _ mr doRef rounds
          (intent_step_wellTyped env _ _ hlm (by assumption))
      | exact (intent_step_no_error env _ _ hlm (by assumption)).elim
  · intro e h
    unfold orchestrator_search at h
    dsimp only at h
    repeat' split at h
    all_goals first
      | exact Except.noConfusion h
      | exact intent_step_error_cases env _ _ (by assumption)
      | exact search_error_lm_bad env _ _ _ _ _ _ _ (by assumption) h
  · intro rounds2 hraise hctx
    unfold tool_execute
    rw [if_neg hctx, hraise]

/-- Claim C3, counterexample: three language-model fallback outcomes that
escape `search` as exceptions instead of being surfaced in a Response —
the call itself raising, output that parses to a non-dict JSON value
(AttributeError at the first `intent.get`), and a dict whose
`retrieval_plan` is a number (TypeError at
`len(intent.get("retrieval_plan") or [])`). -/
theorem C3_counterexample :
    orchestrator_search { trivialEnv with lmIntent := .error () } "" "hello"
      20 true 1 = .error () ∧
    orchestrator_search { trivialEnv with lmIntent := .ok (.jarr []) } ""
      "hello" 20 true 1 = .error () ∧
    orchestrator_search
      { trivialEnv with lmIntent := .ok (.jobj [("retrieval_plan", .jnum 7)]) }
      "" "hello" 20 true 1 = .error () := by
  have hstrip : pyStrip "hello" = "hello" := by decide
  have hgate : (analyze ([] : List SourceMatch) {} {} {} none
      ).shouldUseDeterministic = false := by
    unfold analyze extract_source_hints pyRound3 roundHalfEven
    norm_num [Int.floor_eq_iff]
  refine ⟨?_, ?_, ?_⟩
  all_goals
    unfold orchestrator_search
    dsimp only
    rw [if_neg (by simp : ¬ (("hello":String) ≠ "" ∧ ("":String) ≠ ""))]
    rw [if_pos (by simp : ("hello":String) ≠ "")]
    rw [hstrip]
    rw [if_neg (by simp : ¬ ("hello":String) = "")]
    rw [if_pos (by simp : ("hello":String) ≠ "")]
    simp only [trivialEnv]
    unfold intent_step
    rw [if_neg (by simp [hgate])]
    try rfl

/-- Claim C3, witness: the amended theorem applied at a concrete
environment whose LM fallback returns the recovery-default intent dict,
which is well typed. -/
theorem C3_witness :
    (∃ raw, trivialEnv.lmIntent = .ok (.jobj raw) ∧
      WellTypedIntentDict raw = true) ∧
    (∃ r, orchestrator_search trivialEnv "" "hello" 20 true 1 = .ok r) := by
  refine ⟨⟨defaultLMIntent, rfl, by decide⟩, ?_⟩
  exact (C3_search_returns_response_unless_lm_raises trivialEnv "" "hello"
    20 true 1).1 ⟨defaultLMIntent, rfl, by decide⟩

/-! ## Claim C2: refinement trace and circuit breaker -/

/-- Claim C2: contrary to the spec, the orchestrator keeps no per-reason
state and records no trace.  The assembled `meta` dict never contains a
`refinement_trace` or `circuit_breaker_open` key under any arguments, and
in a concrete two-round search over an empty environment the `no_results`
trigger fires on both rounds instead of at most once. -/
theorem C2_no_refinement_trace_and_no_circuit_breaker :
    (∀ q sq mu it tr c smt cnt cs ag ags,
      (((assembleMeta q sq mu it tr c smt cnt cs ag ags).map
          Prod.fst).contains "refinement_trace" = false) ∧
      (((assembleMeta q sq mu it tr c smt cnt cs ag ags).map
          Prod.fst).contains "circuit_breaker_open" = false)) ∧
    (refinement_loop trivialEnv {}
        [{ source := "email", methods := ["vector"], query := "q" }] 2
        [] [] 1 [] []).firedReasons = [.noResults, .noResults] := by
  constructor
  · intro q sq mu it tr c smt cnt cs ag ags
    cases cnt <;> by_cases hag : ag.isEmpty <;>
      simp [assembleMeta, hag, List.contains, List.elem_eq_mem]
  · rfl

/-! ## Claim C6: dispatcher failure semantics -/

/-- Claim C6 (amended): a thrown call-function exception yields an empty
DispatcherResult with the original mode; a `success=false` payload does so
only when the payload also lacks `results` and `count` keys (otherwise it
is parsed normally); an `output` string that fails to parse as JSON yields
the empty DispatcherResult with the original mode. -/
theorem C6_failure_paths_empty_with_original_mode
    (callFn : ℕ → List (String × JVal) → Except Unit (List (String × JVal)))
    (parseJson : String → Option JVal) (st : DispatcherState)
    (source query : String) (methods : List String)
    (filters : List FilterClause) (topK : ℤ) (mode : String)
    (sortField : Option String) (sortOrder : String) (groupBy : Option String)
    (aggregateTopN : ℤ) (result : List (String × JVal)) (token : ℕ)
    (s : String) :
    (st.mcpCallers.lookup source = some token →
      callFn token (buildUnifiedSearchArgs source query methods filters topK
        mode sortField sortOrder groupBy aggregateTopN) = .error () →
      dispatcher_search callFn parseJson st source query methods filters topK
        mode sortField sortOrder groupBy aggregateTopN =
        .ok { source, mode := .jstr mode }) ∧
    (result.lookup "success" = some (.jbool false) →
      result.lookup "results" = none → result.lookup "count" = none →
      parse_response parseJson result source mode =
        .ok { source, mode := .jstr mode }) ∧
    (result.lookup "output" = some (.jstr s) → parseJson s = none →
      parse_response parseJson result source mode =
        .ok { source, mode := .jstr mode }) := by
  refine ⟨?_, ?_, ?_⟩
  · intro hlook hcall
    unfold dispatcher_search
    rw [hlook]
    dsimp only
    rw [hcall]
  · intro hsucc hres hcnt
    unfold parse_response
    rw [hsucc, hres, hcnt]
    simp [JVal.truthy]
  · intro hout hpj
    unfold parse_response
    by_cases hguard : (!((result.lookup "success").getD
        (.jbool true)).truthy && (result.lookup "results").isNone
          && (result.lookup "count").isNone) = true
    · rw [if_pos hguard]
    · rw [if_neg hguard, hout]
      dsimp only
      rw [hpj]

/-- Claim C6, counterexample: a payload with `success=false` that still
carries a `results` array is parsed normally, returning a non-empty
DispatcherResult rather than the empty one the spec promises. -/
theorem C6_counterexample :
    parse_response (fun _ => none)
      [("success", .jbool false),
       ("results", .jarr [.jobj [("id", .jstr "1")]])] "email" "search" =
    .ok { results := [{ id := "1", source := "email" }],
          mode := .jstr "search", source := "email" } := by
  rfl

/-- Claim C6, witness: the amended theorem applied at concrete inputs
exercising all three failure branches. -/
theorem C6_witness :
    dispatcher_search (fun _ _ => .error ()) (fun _ => none)
      { mcpCallers := [("email", 0)], connectionSources := [("email", "c")] }
      "email" "q" [] [] 10 "search" none "desc" none 10 =
      .ok { source := "email", mode := .jstr "search" } ∧
    parse_response (fun _ => none) [("success", .jbool false)] "email"
      "search" = .ok { source := "email", mode := .jstr "search" } ∧
    parse_response (fun _ => none) [("output", .jstr "not json")] "email"
      "search" = .ok { source := "email", mode := .jstr "search" } := by
  refine ⟨?_, ?_, ?_⟩
  · exact (C6_failure_paths_empty_with_original_mode (fun _ _ => .error ())
      (fun _ => none)
      { mcpCallers := [("email", 0)], connectionSources := [("email", "c")] }
      "email" "q" [] [] 10 "search" none "desc" none 10 [] 0 "").1 rfl rfl
  · exact (C6_failure_paths_empty_with_original_mode (fun _ _ => .error ())
      (fun _ => none) {} "email" "q" [] [] 10 "search" none "desc" none 10
      [("success", .jbool false)] 0 "").2.1 rfl rfl rfl
  · exact (C6_failure_paths_empty_with_original_mode (fun _ _ => .error ())
      (fun _ => none) {} "email" "q" [] [] 10 "search" none "desc" none 10
      [("output", .jstr "not json")] 0 "not json").2.2 rfl rfl

/-! ## Claim C7: request routing args -/

/-- Claim C7: contrary to the spec, `register_mcp` takes no
`request_routing_args` parameter (it records only the call token and the
connection key per source), and the outgoing `unified_search` arguments are
drawn from a fixed key vocabulary that no capability can extend — so a
capability-declared routing argument such as `mailbox` never reaches the
outgoing arguments, while the browser sub-source flags are hard-coded on
the source name. -/
theorem C7_request_routing_args_not_merged :
    (∀ source query methods filters topK mode sortField sortOrder groupBy
        aggregateTopN,
      ((buildUnifiedSearchArgs source query methods filters topK mode
          sortField sortOrder groupBy aggregateTopN).map Prod.fst).all
        (fun k => k ∈ ["query", "top_k", "include_scores", "mode",
          "aggregate_top_n", "methods", "filters", "sort_field",
          "sort_order", "group_by", "search_history", "search_bookmarks"])
        = true) ∧
    (buildUnifiedSearchArgs "email" "q" [] [] 10 "search" none "desc" none
        10).lookup "mailbox" = none ∧
    (buildUnifiedSearchArgs "browser_history" "q" [] [] 10 "search" none
        "desc" none 10).lookup "search_history" = some (.jbool true) ∧
    register_mcp {} "conn" ["email"] 0 =
      { mcpCallers := [("email", 0)],
        connectionSources := [("email", "conn")] } := by
  refine ⟨?_, rfl, rfl, rfl⟩
  intro source query methods filters topK mode sortField sortOrder groupBy
    aggregateTopN
  unfold buildUnifiedSearchArgs
  dsimp only
  repeat' split
  all_goals simp

/-! ## Claim C10: top_k fixed at 10 -/

theorem parseResponseData_results_le (data : List (String × JVal))
    (source mode : String) :
    (parseResponseData data source mode).results.length ≤
      (match (data.lookup "results").getD (.jarr []) with
       | .jarr xs => xs
       | _ => []).length := by
  unfold parseResponseData
  dsimp only
  split
  · exact List.length_filterMap_le _ _
  · simp

theorem parse_response_results_le (pj : String → Option JVal)
    (result : List (String × JVal)) (source mode : String)
    (dr : DispatcherResult)
    (h : parse_response pj result source mode = .ok dr) :
    dr.results.length ≤ (payloadRawResults pj result).length := by
  unfold parse_response at h
  unfold payloadRawResults
  split at h
  · injection h with h
    subst h
    simp
  · dsimp only
    cases hout : result.lookup "output"
    case none =>
      rw [hout] at h
      dsimp only at h
      injection h with h
      subst h
      exact parseResponseData_results_le result source mode
    case some v =>
      cases v
      case jstr s =>
        rw [hout] at h
        dsimp only at h
        try dsimp only
        cases hpj : pj s
        case none =>
          rw [hpj] at h
          dsimp only at h
          injection h with h
          subst h
          simp
        case some w =>
          cases w
          case jobj fs =>
            rw [hpj] at h
            dsimp only at h
            try dsimp only
            injection h with h
            subst h
            exact parseResponseData_results_le fs source mode
          all_goals
            rw [hpj] at h
            dsimp only at h
            exact Except.noConfusion h
      case jobj fs =>
        rw [hout] at h
        dsimp only at h
        try dsimp only
        injection h with h
        subst h
        exact parseResponseData_results_le fs source mode
      all_goals
        rw [hout] at h
        dsimp only at h
        try dsimp only
        injection h with h
        subst h
        exact parseResponseData_results_le result source mode

theorem buildUnifiedSearchArgs_base (source query : String)
    (methods : List String) (filters : List FilterClause) (topK : ℤ)
    (mode : String) (sortField : Option String) (sortOrder : String)
    (groupBy : Option String) (aggregateTopN : ℤ) :
    ∃ rest, buildUnifiedSearchArgs source query methods filters topK mode
        sortField sortOrder groupBy aggregateTopN =
      [("query", .jstr query), ("top_k", .jnum topK),
       ("include_scores", .jbool true), ("mode", .jstr mode),
       ("aggregate_top_n", .jnum aggregateTopN)] ++ rest := by
  unfold buildUnifiedSearchArgs
  dsimp only
  repeat' split
  all_goals exact ⟨_, rfl⟩

/-- Claim C10: `top_k` is hard-wired to 10 on both execution paths — the
dispatcher argument dict always carries `top_k = 10` regardless of the
caller's max_results — and whenever the MCP payload and the direct
backends honor the requested `top_k`, one executed decision contributes at
most 10 results. -/
theorem C10_top_k_fixed_at_ten (env : OrchestratorEnv) (d : RoutingDecision)
    (hmcp : ∀ token out,
      env.mcpCallFn token (execute_one_mcp_args d) = .ok out →
      (payloadRawResults env.parseJson out).length ≤ 10)
    (hdirect : ∀ backend,
      env.directBackends.lookup d.source = some backend →
      ∀ rs, backend d.query d.methods d.filters 10 = .ok rs →
      rs.length ≤ 10) :
    (execute_one_mcp_args d).lookup "top_k" = some (.jnum 10) ∧
    (execute_one env d).1.length ≤ 10 := by
  constructor
  · obtain ⟨rest, hrest⟩ := buildUnifiedSearchArgs_base d.source d.query
      d.methods d.filters 10 d.mode.value d.sortField d.sortOrder d.groupBy
      d.aggregateTopN
    unfold execute_one_mcp_args
    rw [hrest, lookup_append]
    rfl
  · unfold execute_one
    by_cases hdisp : (env.dispatcher.mcpCallers.lookup d.source).isSome
    · rw [if_pos hdisp]
      cases hlook : env.dispatcher.mcpCallers.lookup d.source
      · rw [hlook] at hdisp
        simp at hdisp
      · rename_i token
        dsimp only
        cases hcall : env.mcpCallFn token (execute_one_mcp_args d)
        · simp
        · rename_i result
          dsimp only
          cases hparse :
            parse_response env.parseJson result d.source d.mode.value
          · simp
          · rename_i dres
            dsimp only
            exact (parse_response_results_le env.parseJson result d.source
              d.mode.value dres hparse).trans (hmcp token result hcall)
    · rw [if_neg hdisp]
      cases hb : env.directBackends.lookup d.source
      · simp
      · rename_i backend
        dsimp only
        cases hr : backend d.query d.methods d.filters 10
        · simp
        · rename_i rs
          dsimp only
          exact hdirect backend hb rs hr

/-- Claim C10, witness: the theorem applied to a concrete environment with
one registered MCP source returning a two-result payload. -/
theorem C10_witness :
    (execute_one_mcp_args
        { source := "email", methods := ["vector"], query := "q" }).lookup
      "top_k" = some (.jnum 10) ∧
    (execute_one c10Env
        { source := "email", methods := ["vector"], query := "q" }).1.length
      ≤ 10 := by
  refine C10_top_k_fixed_at_ten c10Env
    { source := "email", methods := ["vector"], query := "q" } ?_ ?_
  · intro token out h
    injection h with h
    subst h
    decide
  · intro backend hb
    exact Option.noConfusion hb

end Lilith
